import Mathlib

/-!
# rdmapp task primitive (`include/rdmapp/task.h`)

A shallow embedding of the coroutine task of `task.h`:

* the promise object (`value_returner`, `promise_base`, `task::promise_type`),
* the awaiter returned by `operator co_await` (`task::task_awaiter`),
* the handle object (`task`: constructor, move constructor, destructor, `detach`),
* the part of the C++ coroutine lowering those functions are called from
  (`co_return`, an escaping exception, `co_await`), as an interpreter over
  coroutine frames.

Coroutine frames live in a `World`, addressed by natural numbers (the value of a
`std::coroutine_handle`).  `std::promise` / `std::future` are modelled by their
shared state (`promise_`) and by the validity bit of the one `std::future`
obtained from it (`future_`): `std::future::get` releases the shared state, so
`valid()` is false afterwards.
-/

namespace rdmapp

/-- Payload of a captured failure (`std::exception_ptr`). -/
abbrev Failure := String

/-- What the shared state of a `std::promise<T>` holds once it is ready.
`task<void>` is the instance `T = Unit`. -/
inductive Outcome (T : Type) where
  | value (v : T) : Outcome T
  | failure (e : Failure) : Outcome T
  deriving DecidableEq, Repr

/-- Ways in which a call leaves the defined behaviour of the program. -/
inductive Fault where
  /-- a call of `set_value` / `set_exception` on a promise that is already satisfied. -/
  | promise_already_satisfied : Fault
  /-- a `std::future` member called when `valid()` is false. -/
  | no_state : Fault
  /-- a blocking read of a future that is not ready, on the only running thread. -/
  | would_block : Fault
  /-- a null coroutine handle, or one that names no frame, was dereferenced. -/
  | null_handle : Fault
  /-- an `assert` failed. -/
  | assertion : Fault
  /-- a call of `resume()` on a coroutine suspended at its final suspend point. -/
  | invalid_resume : Fault
  /-- the interpreter ran out of steps. -/
  | out_of_fuel : Fault
  deriving DecidableEq, Repr

/-- Observable events, in the order they happen. -/
inductive Event where
  | result_written (id : Nat) : Event
  | resumed (id : Nat) : Event
  | destroyed (id : Nat) : Event
  deriving DecidableEq, Repr

/-- Body of a coroutine returning `task<T>`: what is left to execute.
`co_await h k` awaits the task whose handle is `h` and continues with `k` applied
to the value produced; the body has no `try` block, so a failure re-raised by the
await leaves the body as an unhandled exception.  `suspend k` awaits something
outside `task.h` that always suspends and is resumed by the driver.
`await_resume h k` is the resumption point inside `co_await h k`, after
`await_suspend` has run. -/
inductive Code (T : Type) where
  | co_return (v : T) : Code T
  | throw (e : Failure) : Code T
  | co_await (h : Nat) (k : T → Code T) : Code T
  | await_resume (h : Nat) (k : T → Code T) : Code T
  | suspend (k : Code T) : Code T

/-- The promise object: `task<T>::promise_type` with its bases
`promise_base` and `value_returner`. -/
structure promise_type (T : Type) where
  /-- shared state of `promise_`: `none` until `set_value` / `set_exception`. -/
  promise_ : Option (Outcome T)
  /-- value of `future_.valid()`. -/
  future_ : Bool
  continuation_ : Option Nat
  release_detached_ : Option Nat

/-- A coroutine frame. -/
structure Frame (T : Type) where
  promise : promise_type T
  /-- resumption point. -/
  code : Code T
  /-- value of `coroutine_handle::done()`: suspended at the final suspend point. -/
  done : Bool
  /-- number of `coroutine_handle::destroy()` calls the frame has received. -/
  destroyed : Nat

/-- All coroutine frames, the next free address, and the event log. -/
structure World (T : Type) where
  frames : Nat → Option (Frame T)
  next : Nat
  trace : List Event

/-- The handle object `task<T>`. -/
structure task where
  /-- member `h_`; `none` is `nullptr`. -/
  h_ : Option Nat
  detached_ : Bool
  deriving DecidableEq, Repr

variable {T : Type}

/-- The world before any coroutine has been called. -/
def World.empty : World T :=
  { frames := fun _ => none, next := 0, trace := [] }

/-- Overwrite the frame at address `id`. -/
def World.setFrame (w : World T) (id : Nat) (f : Frame T) : World T :=
  { w with frames := fun j => if j = id then some f else w.frames j }

/-- Append an event to the log. -/
def World.log (w : World T) (e : Event) : World T :=
  { w with trace := w.trace ++ [e] }

/-- Embedding of `promise_type()`: `future_(this->promise_.get_future())`, both handles null. -/
def promise_type.ctor : promise_type T :=
  { promise_ := none, future_ := true, continuation_ := none, release_detached_ := none }

/-- Embedding of `std::promise::set_value`. -/
def std_promise_set_value (p : promise_type T) (v : T) : Except Fault (promise_type T) :=
  match p.promise_ with
  | some _ => .error .promise_already_satisfied
  | none => .ok { p with promise_ := some (.value v) }

/-- Embedding of `std::promise::set_exception`. -/
def std_promise_set_exception (p : promise_type T) (e : Failure) :
    Except Fault (promise_type T) :=
  match p.promise_ with
  | some _ => .error .promise_already_satisfied
  | none => .ok { p with promise_ := some (.failure e) }

/-- Embedding of `std::future::get`: blocks until ready, returns the value or re-raises the
failure (`Outcome.failure`), and releases the shared state. -/
def std_future_get (p : promise_type T) : Except Fault (Outcome T × promise_type T) :=
  if p.future_ then
    match p.promise_ with
    | none => .error .would_block
    | some o => .ok (o, { p with future_ := false })
  else .error .no_state

/-- Embedding of `std::future::wait`: `true` when it returns at once, `false` when the caller
blocks until the shared state is made ready. -/
def std_future_wait (p : promise_type T) : Except Fault Bool :=
  if p.future_ then .ok p.promise_.isSome else .error .no_state

/-- Embedding of `value_returner<T>::return_value` (and `return_void` for `T = Unit`). -/
def value_returner.return_value (p : promise_type T) (value : T) :
    Except Fault (promise_type T) :=
  std_promise_set_value p value

/-- Embedding of `promise_type::unhandled_exception`. -/
def promise_type.unhandled_exception (p : promise_type T) (current_exception : Failure) :
    Except Fault (promise_type T) :=
  std_promise_set_exception p current_exception

/-- Embedding of `promise_type::set_detached_task`. -/
def promise_type.set_detached_task (p : promise_type T) (h : Nat) : promise_type T :=
  { p with release_detached_ := some h }

/-- Embedding of `promise_base::initial_suspend` returns `std::suspend_never`, whose
`await_ready` is `true`: the body starts at once. -/
def promise_base.initial_suspend_ready : Bool := true

/-- Embedding of `coroutine_handle::done()`. -/
def coroutine_handle.done (w : World T) (h : Nat) : Except Fault Bool :=
  match w.frames h with
  | none => .error .null_handle
  | some f => .ok f.done

/-- Embedding of `coroutine_handle::destroy()`. -/
def coroutine_handle.destroy (w : World T) (h : Nat) : Except Fault (World T) :=
  match w.frames h with
  | none => .error .null_handle
  | some f => .ok ((w.setFrame h { f with destroyed := f.destroyed + 1 }).log (.destroyed h))

/-- Apply a promise member function to the promise of frame `h`. -/
def World.withPromise (w : World T) (h : Nat)
    (m : promise_type T → Except Fault (promise_type T)) : Except Fault (World T) :=
  match w.frames h with
  | none => .error .null_handle
  | some f =>
    match m f.promise with
    | .error e => .error e
    | .ok p => .ok (w.setFrame h { f with promise := p })

/-- Embedding of `await_suspend` of the awaiter returned by `promise_base::final_suspend`.
`release_detached_` is the awaiter's member, `suspended` the finishing coroutine.
The result is the handle that is resumed next; `none` is `std::noop_coroutine()`. -/
def promise_base.final_suspend.await_suspend (w : World T) (release_detached_ : Option Nat)
    (suspended : Nat) : Except Fault (World T × Option Nat) :=
  match w.frames suspended with
  | none => .error .null_handle
  | some f =>
    match f.promise.continuation_ with
    | some c => .ok (w, some c)
    | none =>
      match release_detached_ with
      | some r =>
        match coroutine_handle.destroy w r with
        | .error e => .error e
        | .ok w1 => .ok (w1, none)
      | none => .ok (w, none)

/-- The statement `co_await promise.final_suspend()` of coroutine `id`:
`final_suspend()` builds `awaiter{release_detached_}`, its `await_ready` is
`false`, so the coroutine is suspended at its final suspend point and
`await_suspend` is called. -/
def promise_base.final_suspend (w : World T) (id : Nat) : Except Fault (World T × Option Nat) :=
  match w.frames id with
  | none => .error .null_handle
  | some f =>
    promise_base.final_suspend.await_suspend (w.setFrame id { f with done := true })
      f.promise.release_detached_ id

/-- Embedding of `co_return v` in coroutine `id`: `return_value(v)`, then the final suspend. -/
def co_return_stmt (w : World T) (id : Nat) (v : T) : Except Fault (World T × Option Nat) :=
  match w.withPromise id (fun p => value_returner.return_value p v) with
  | .error e => .error e
  | .ok w1 => promise_base.final_suspend (w1.log (.result_written id)) id

/-- An exception `e` leaves the body of coroutine `id`: `unhandled_exception()`,
then the final suspend. -/
def throw_stmt (w : World T) (id : Nat) (e : Failure) : Except Fault (World T × Option Nat) :=
  match w.withPromise id (fun p => promise_type.unhandled_exception p e) with
  | .error e1 => .error e1
  | .ok w1 => promise_base.final_suspend (w1.log (.result_written id)) id

/-- Embedding of `task_awaiter::await_ready`. -/
def task_awaiter.await_ready (w : World T) (h_ : Nat) : Except Fault Bool :=
  coroutine_handle.done w h_

/-- Embedding of `task_awaiter::await_suspend`. -/
def task_awaiter.await_suspend (w : World T) (h_ : Nat) (suspended : Nat) :
    Except Fault (World T) :=
  w.withPromise h_ (fun p => .ok { p with continuation_ := some suspended })

/-- Embedding of `task_awaiter::await_resume`: `h_.promise().future_.get()`. -/
def task_awaiter.await_resume (w : World T) (h_ : Nat) : Except Fault (Outcome T × World T) :=
  match w.frames h_ with
  | none => .error .null_handle
  | some f =>
    match std_future_get f.promise with
    | .error e => .error e
    | .ok (o, p) => .ok (o, w.setFrame h_ { f with promise := p })

/-- Record the resumption point of coroutine `id` when it suspends. -/
def World.saveCode (w : World T) (id : Nat) (c : Code T) : Except Fault (World T) :=
  match w.frames id with
  | none => .error .null_handle
  | some f => .ok (w.setFrame id { f with code := c })

/-- Run coroutine `id` from code `c` until it suspends or finishes.  The second
component is the coroutine its final suspend transfers control to, if any. -/
def runBody (id : Nat) : Code T → World T → Except Fault (World T × Option Nat)
  | .co_return v, w => co_return_stmt w id v
  | .throw e, w => throw_stmt w id e
  | .co_await h k, w =>
    match task_awaiter.await_ready w h with
    | .error e => .error e
    | .ok true =>
      match task_awaiter.await_resume w h with
      | .error e => .error e
      | .ok (.value v, w1) => runBody id (k v) w1
      | .ok (.failure e, w1) => throw_stmt w1 id e
    | .ok false =>
      match task_awaiter.await_suspend w h id with
      | .error e => .error e
      | .ok w1 =>
        match w1.saveCode id (.await_resume h k) with
        | .error e => .error e
        | .ok w2 => .ok (w2, none)
  | .await_resume h k, w =>
    match task_awaiter.await_resume w h with
    | .error e => .error e
    | .ok (.value v, w1) => runBody id (k v) w1
    | .ok (.failure e, w1) => throw_stmt w1 id e
  | .suspend k, w =>
    match w.saveCode id k with
    | .error e => .error e
    | .ok w1 => .ok (w1, none)

/-- Embedding of `coroutine_handle::resume()` of coroutine `id`, followed by every symmetric
transfer its completion triggers; `fuel` bounds the number of transfers. -/
def resume : Nat → World T → Nat → Except Fault (World T)
  | 0, _, _ => .error .out_of_fuel
  | fuel + 1, w, id =>
    match w.frames id with
    | none => .error .null_handle
    | some f =>
      if f.done then .error .invalid_resume
      else
        match runBody id f.code (w.log (.resumed id)) with
        | .error e => .error e
        | .ok (w1, some c) => resume fuel w1 c
        | .ok (w1, none) => .ok w1

/-- A new coroutine frame at the next free address, with a freshly constructed
promise, about to run `body`. -/
def World.alloc (w : World T) (body : Code T) : World T :=
  { frames := fun j =>
      if j = w.next then
        some { promise := promise_type.ctor, code := body, done := false, destroyed := 0 }
      else w.frames j,
    next := w.next + 1,
    trace := w.trace }

/-- Embedding of `task(coroutine_handle_type h)`. -/
def task.ctor (h : Nat) : task :=
  { h_ := some h, detached_ := false }

/-- Calling a coroutine with body `body`: the frame and its promise are
created, `get_return_object()` makes the handle, and since `initial_suspend`
never suspends the body runs until its first suspension before the handle is
returned to the caller. -/
def spawn (w : World T) (body : Code T) : Except Fault (World T × task) :=
  if promise_base.initial_suspend_ready then
    match runBody w.next body (w.alloc body) with
    | .error e => .error e
    | .ok (w1, some c) =>
      match resume (w1.next + 1) w1 c with
      | .error e => .error e
      | .ok w2 => .ok (w2, task.ctor w.next)
    | .ok (w1, none) => .ok (w1, task.ctor w.next)
  else .ok (w.alloc body, task.ctor w.next)

/-- Embedding of `task::get_future`: the promise whose `future_` the handle reads. -/
def task.get_future (w : World T) (t : task) : Except Fault (promise_type T) :=
  match t.h_ with
  | none => .error .null_handle
  | some h =>
    match w.frames h with
    | none => .error .null_handle
    | some f => .ok f.promise

/-- The call `t.get_future().get()`. -/
def task.get_future_get (w : World T) (t : task) : Except Fault (Outcome T × World T) :=
  match t.h_ with
  | none => .error .null_handle
  | some h =>
    match w.frames h with
    | none => .error .null_handle
    | some f =>
      match std_future_get f.promise with
      | .error e => .error e
      | .ok (o, p) => .ok (o, w.setFrame h { f with promise := p })

/-- How a destructor call ends for the calling thread. -/
inductive DtorStatus where
  /-- the destructor returned. -/
  | returned : DtorStatus
  /-- the destructor is blocked in `get_future().wait()` on frame `h` until the
  shared state of that frame is made ready. -/
  | blocked (h : Nat) : DtorStatus
  deriving DecidableEq, Repr

/-- Embedding of `task::~task`. -/
def task.dtor (w : World T) (t : task) : Except Fault (World T × DtorStatus) :=
  if !t.detached_ then
    match t.h_ with
    | none => .error .null_handle
    | some h =>
      match coroutine_handle.done w h with
      | .error e => .error e
      | .ok false =>
        match w.withPromise h (fun p => .ok (p.set_detached_task h)) with
        | .error e => .error e
        | .ok w1 =>
          match task.get_future w1 t with
          | .error e => .error e
          | .ok p =>
            match std_future_wait p with
            | .error e => .error e
            | .ok true => .ok (w1, .returned)
            | .ok false => .ok (w1, .blocked h)
      | .ok true =>
        match coroutine_handle.destroy w h with
        | .error e => .error e
        | .ok w1 => .ok (w1, .returned)
  else .ok (w, .returned)

/-- Embedding of `task(task &&other)`: the new handle, and `other` after the two
`std::exchange` calls. -/
def task.move_ctor (other : task) : task × task :=
  ({ h_ := other.h_, detached_ := other.detached_ }, { h_ := none, detached_ := true })

/-- Embedding of `task::detach`. -/
def task.detach (w : World T) (t : task) : Except Fault (World T × task) :=
  if !t.detached_ then
    match t.h_ with
    | none => .error .null_handle
    | some h =>
      match w.withPromise h (fun p => .ok (p.set_detached_task h)) with
      | .error e => .error e
      | .ok w1 => .ok (w1, { t with detached_ := true })
  else .error .assertion

/-- A blocked `get_future().wait()` on frame `h` returns once the shared state of
that frame is ready. -/
def wait_returns (w : World T) (h : Nat) : Bool :=
  match w.frames h with
  | none => false
  | some f => f.promise.promise_.isSome

/-- Number of `destroy()` calls frame `h` has received (0 for no frame). -/
def destroyCount (w : World T) (h : Nat) : Nat :=
  match w.frames h with
  | none => 0
  | some f => f.destroyed

/-- The completion step of coroutine `id` with outcome `o`: `co_return` for a
value, an escaping exception for a failure. -/
def finish (w : World T) (id : Nat) (o : Outcome T) : Except Fault (World T × Option Nat) :=
  match o with
  | .value v => co_return_stmt w id v
  | .failure e => throw_stmt w id e

/-- A frame that has completed with the value 42 and has not been read. -/
def done42 : Frame Int :=
  { promise := { promise_ := some (.value 42), future_ := true,
                 continuation_ := none, release_detached_ := none },
    code := .co_return 42, done := true, destroyed := 0 }

/-- What the waiter `x` does with the outcome `o` that `await_resume` hands it:
continue with the value, or leave the body with the re-raised failure. -/
def deliver (x : Nat) (k : T → Code T) (o : Outcome T) (w : World T) :
    Except Fault (World T × Option Nat) :=
  match o with
  | .value v => runBody x (k v) w
  | .failure e => throw_stmt w x e

/-- A frame suspended outside `task.h`, about to return 42 when resumed. -/
def pending42 : Frame Int :=
  { promise := promise_type.ctor, code := .co_return 42, done := false, destroyed := 0 }

/-- A frame for a waiter that adds one to what it awaits. -/
def waiter43 : Frame Int :=
  { promise := promise_type.ctor, code := .co_await 0 (fun r => .co_return (r + 1)),
    done := false, destroyed := 0 }

/-- The frames together with the `task` objects that are alive, by object
identity. -/
structure Sys (T : Type) where
  world : World T
  handles : Nat → Option task
  nextHandle : Nat

/-- What a program does with tasks. -/
inductive Op (T : Type) where
  /-- call a coroutine with this body; the returned `task` is a new object. -/
  | call (body : Code T) : Op T
  /-- move-construct a new `task` object from object `i`. -/
  | move (i : Nat) : Op T
  /-- call `detach()` on object `i`. -/
  | detach (i : Nat) : Op T
  /-- the lifetime of object `i` ends. -/
  | dtor (i : Nat) : Op T
  /-- call `get_future().get()` on object `i`. -/
  | get (i : Nat) : Op T
  /-- the driver resumes the suspended coroutine at address `id`. -/
  | resume (id : Nat) : Op T

/-- No frames, no objects. -/
def Sys.empty : Sys T :=
  { world := World.empty, handles := fun _ => none, nextHandle := 0 }

/-- Replace (or end, with `none`) the object `i`. -/
def Sys.setHandle (s : Sys T) (i : Nat) (t : Option task) : Sys T :=
  { s with handles := fun j => if j = i then t else s.handles j }

/-- One operation.  Coroutines wait on each other inside their bodies
(`Code.co_await`); a destructor that blocks does nothing more once it is
released, so the object is gone as soon as its destructor has been entered. -/
def Sys.step (s : Sys T) : Op T → Except Fault (Sys T)
  | .call body =>
    match spawn s.world body with
    | .error e => .error e
    | .ok (w, t) =>
      .ok { world := w,
            handles := fun j => if j = s.nextHandle then some t else s.handles j,
            nextHandle := s.nextHandle + 1 }
  | .move i =>
    match s.handles i with
    | none => .error .null_handle
    | some other =>
      .ok { world := s.world,
            handles := fun j =>
              if j = s.nextHandle then some (task.move_ctor other).1
              else if j = i then some (task.move_ctor other).2
              else s.handles j,
            nextHandle := s.nextHandle + 1 }
  | .detach i =>
    match s.handles i with
    | none => .error .null_handle
    | some t =>
      match task.detach s.world t with
      | .error e => .error e
      | .ok (w, t1) => .ok ({ s with world := w }.setHandle i (some t1))
  | .dtor i =>
    match s.handles i with
    | none => .error .null_handle
    | some t =>
      match task.dtor s.world t with
      | .error e => .error e
      | .ok (w, _) => .ok ({ s with world := w }.setHandle i none)
  | .get i =>
    match s.handles i with
    | none => .error .null_handle
    | some t =>
      match task.get_future_get s.world t with
      | .error e => .error e
      | .ok (_, w) => .ok { s with world := w }
  | .resume id =>
    match resume (s.world.next + 1) s.world id with
    | .error e => .error e
    | .ok w => .ok { s with world := w }

/-- A sequence of operations, stopping at the first fault. -/
def Sys.run (s : Sys T) : List (Op T) → Except Fault (Sys T)
  | [] => .ok s
  | op :: ops =>
    match s.step op with
    | .error e => .error e
    | .ok s1 => s1.run ops

/-- A pending frame that coroutine 1 awaits and that is marked for release. -/
def awaited42 : Frame Int :=
  { promise := { promise_ := none, future_ := true, continuation_ := some 1,
                 release_detached_ := some 0 },
    code := .co_return 42, done := false, destroyed := 0 }

/-- Lifetime condition on the frame at address `id`: destroyed at most once,
only when done, done only with the result written, release link only to itself. -/
def frameOK (id : Nat) (f : Frame T) : Prop :=
  f.destroyed ≤ 1 ∧ (0 < f.destroyed → f.done = true) ∧
  (f.done = true → f.promise.promise_.isSome = true) ∧
  (∀ r, f.promise.release_detached_ = some r → r = id)

/-- The object `t` refers to a frame that is not destroyed and not marked for
release. -/
def owns (w : World T) (t : task) : Prop :=
  ∃ id f, t.h_ = some id ∧ w.frames id = some f ∧ f.destroyed = 0 ∧
    f.promise.release_detached_ = none

/-- Condition on the frames, given the objects `hs`: every frame is `frameOK`,
addresses from `next` on are free, every non-detached object `owns` its frame. -/
def WInv (hs : Nat → Option task) (w : World T) : Prop :=
  (∀ id f, w.frames id = some f → frameOK id f) ∧
  (∀ id, w.next ≤ id → w.frames id = none) ∧
  (∀ i t, hs i = some t → t.detached_ = false → owns w t)

/-- Condition on the objects: two distinct non-detached objects never refer to
the same frame, and identities from `n` on are free. -/
def HInv (hs : Nat → Option task) (n : Nat) : Prop :=
  (∀ i j t u, hs i = some t → hs j = some u → t.detached_ = false → u.detached_ = false →
    t.h_ = u.h_ → i = j) ∧
  (∀ i, n ≤ i → hs i = none)

/-- The invariant of `Sys.step`. -/
def Sys.Inv (s : Sys T) : Prop :=
  WInv s.handles s.world ∧ HInv s.handles s.nextHandle

/-- Coroutine `id`, if it exists, is not at its final suspend point. -/
def notDone (w : World T) (id : Nat) : Prop :=
  ∀ f, w.frames id = some f → f.done = false

/-- A program that calls a coroutine which suspends and then returns 7, moves
the handle, detaches the new handle, lets the driver resume the coroutine, and
ends the lifetime of both handle objects. -/
def detachedRun : List (Op Int) :=
  [.call (.suspend (.co_return 7)), .move 0, .detach 1, .resume 0, .dtor 1, .dtor 0]

/-- A world whose only frame has completed with 42. -/
def doneWorld : World Int :=
  (World.empty : World Int).setFrame 0 done42

/-- A world with a pending frame at address 0 and a waiter at address 1. -/
def pendingWorld : World Int :=
  ((World.empty : World Int).setFrame 0 pending42).setFrame 1 waiter43

/-- Number of times the result slot of coroutine `id` has been written. -/
def written (w : World T) (id : Nat) : Nat :=
  w.trace.count (.result_written id)

/-- The result slot of the frame at `id` agrees with its state: unset and never
written while the coroutine is not done, set and written once when it is. -/
def slotOK (w : World T) (id : Nat) (f : Frame T) : Prop :=
  (f.done = false → f.promise.promise_ = none ∧ written w id = 0) ∧
  (f.done = true → (∃ o, f.promise.promise_ = some o) ∧ written w id = 1)

/-- Every frame is `slotOK`, and nothing exists or was written at free addresses. -/
def SlotInv (w : World T) : Prop :=
  (∀ id f, w.frames id = some f → slotOK w id f) ∧
  (∀ id, w.next ≤ id → w.frames id = none ∧ written w id = 0)

/-- What a frame keeps as it changes from `f` to `g`: being done, a written
result, and having a continuation. -/
def frameKeeps (f g : Frame T) : Prop :=
  (f.done = true → g.done = true) ∧
  (∀ o, f.promise.promise_ = some o → g.promise.promise_ = some o) ∧
  (f.promise.continuation_.isSome = true → g.promise.continuation_.isSome = true)

/-- Every frame of `w` is still there in `w1` and `frameKeeps` what it had. -/
def Evolves (w w1 : World T) : Prop :=
  ∀ id f, w.frames id = some f → ∃ g, w1.frames id = some g ∧ frameKeeps f g

/-- The world `w1` is `SlotInv` and `Evolves` from `w`. -/
def Next (w w1 : World T) : Prop :=
  SlotInv w1 ∧ Evolves w w1

/-- The continuation link of the frame at `h` (`none` also when there is no
frame). -/
def continuationOf (w : World T) (h : Nat) : Option Nat :=
  match w.frames h with
  | none => none
  | some f => f.promise.continuation_

/-- A program in which a first coroutine suspends and a second one awaits it. -/
def oneWaiter : List (Op Int) :=
  [.call (.suspend (.co_return 42)), .call (.co_await 0 (fun r => .co_return (r + 1)))]

/-- A third coroutine awaits the first one as well, then the driver resumes the
first one. -/
def secondWaiter : List (Op Int) :=
  [.call (.co_await 0 (fun r => .co_return (r + 2))), .resume 0]

/-- A program that calls a coroutine returning 42 at once. -/
def callReturn42 : List (Op Int) :=
  [.call (.co_return 42)]

/-- Reading the result, moving the handle and ending both objects. -/
def readAndDrop : List (Op Int) :=
  [.get 0, .move 0, .dtor 1, .dtor 0]

/-- What `resume` does with the result of running a body: follow the symmetric
transfer, if there is one. -/
def drive (fuel : Nat) : Except Fault (World T × Option Nat) → Except Fault (World T)
  | .error e => .error e
  | .ok (w1, some c) => resume fuel w1 c
  | .ok (w1, none) => .ok w1

/-- The world after coroutine `x`, whose frame was `fx`, has been resumed and
has completed with outcome `o`, before its final awaiter chooses what to do. -/
def completeAt (w : World T) (x : Nat) (fx : Frame T) (o : Outcome T) : World T :=
  (((w.log (.resumed x)).setFrame x
      { fx with promise := { fx.promise with promise_ := some o } }).log
      (.result_written x)).setFrame x
    { fx with promise := { fx.promise with promise_ := some o }, done := true }

/-- Three calls that build a chain: coroutine 0 waits for the driver and then
returns 40, coroutine 1 awaits coroutine 0 and adds one, coroutine 2 awaits
coroutine 1 and adds one. -/
def chainCalls : List (Op Int) :=
  [.call (.suspend (.co_return 40)),
   .call (.co_await 0 (fun r => .co_return (r + 1))),
   .call (.co_await 1 (fun r => .co_return (r + 1)))]

/-- The frames after `chainCalls`. -/
def chainWorld : World Int :=
  match Sys.run Sys.empty chainCalls with
  | .ok s => s.world
  | .error _ => World.empty

/-! ## Basic facts about worlds -/

@[simp] theorem setFrame_frames_same (w : World T) (id : Nat) (f : Frame T) :
    (w.setFrame id f).frames id = some f := by
  simp [World.setFrame]

@[simp] theorem setFrame_frames_ne (w : World T) (id j : Nat) (f : Frame T) (h : j ≠ id) :
    (w.setFrame id f).frames j = w.frames j := by
  simp [World.setFrame, h]

@[simp] theorem setFrame_next (w : World T) (id : Nat) (f : Frame T) :
    (w.setFrame id f).next = w.next := rfl

@[simp] theorem setFrame_trace (w : World T) (id : Nat) (f : Frame T) :
    (w.setFrame id f).trace = w.trace := rfl

@[simp] theorem log_frames (w : World T) (e : Event) : (w.log e).frames = w.frames := rfl

@[simp] theorem log_next (w : World T) (e : Event) : (w.log e).next = w.next := rfl

@[simp] theorem log_trace (w : World T) (e : Event) : (w.log e).trace = w.trace ++ [e] := rfl

theorem alloc_frames_same (w : World T) (body : Code T) :
    (w.alloc body).frames w.next =
      some { promise := promise_type.ctor, code := body, done := false, destroyed := 0 } := by
  simp [World.alloc]

/-! ## Preservation of the lifetime invariant -/

theorem WInv_log {hs : Nat → Option task} {w : World T} (e : Event) :
    WInv hs (w.log e) ↔ WInv hs w := Iff.rfl

theorem WInv_setFrame {hs : Nat → Option task} {w : World T} {id : Nat} {f g : Frame T}
    (hinv : WInv hs w) (hf : w.frames id = some f) (hd : g.destroyed = f.destroyed)
    (hr : g.promise.release_detached_ = f.promise.release_detached_)
    (hdone : f.done = true → g.done = true)
    (hp : g.done = true → g.promise.promise_.isSome = true) :
    WInv hs (w.setFrame id g) := by
  obtain ⟨h1, h2, h3⟩ := hinv
  refine ⟨?_, ?_, ?_⟩
  · intro j fj hj
    by_cases hji : j = id
    · subst hji
      simp at hj
      subst hj
      obtain ⟨a, b, _, d⟩ := h1 j f hf
      exact ⟨hd ▸ a, fun h0 => hdone (b (hd ▸ h0)), hp, fun r hr1 => d r (hr ▸ hr1)⟩
    · rw [setFrame_frames_ne _ _ _ _ hji] at hj
      exact h1 j fj hj
  · intro j hj
    by_cases hji : j = id
    · subst hji
      have := h2 j hj
      rw [hf] at this
      cases this
    · rw [setFrame_frames_ne _ _ _ _ hji]
      exact h2 j hj
  · intro i t hi hdet
    obtain ⟨k, fk, hk1, hk2, hk3, hk4⟩ := h3 i t hi hdet
    by_cases hki : k = id
    · subst hki
      rw [hf] at hk2
      cases hk2
      exact ⟨k, g, hk1, by simp, hd.trans hk3, hr.trans hk4⟩
    · exact ⟨k, fk, hk1, by rw [setFrame_frames_ne _ _ _ _ hki]; exact hk2, hk3, hk4⟩

theorem notDone_setFrame {w : World T} {id h : Nat} {f g : Frame T}
    (hn : notDone w id) (hf : w.frames h = some f) (hd : g.done = f.done) :
    notDone (w.setFrame h g) id := by
  intro fi hfi
  by_cases hih : id = h
  · subst hih
    simp at hfi
    subst hfi
    rw [hd]
    exact hn f hf
  · rw [setFrame_frames_ne _ _ _ _ hih] at hfi
    exact hn fi hfi

theorem WInv_withPromise {hs : Nat → Option task} {w w1 : World T} {h : Nat}
    {m : promise_type T → Except Fault (promise_type T)}
    (hm : ∀ p q, m p = .ok q → q.release_detached_ = p.release_detached_ ∧
      (p.promise_.isSome = true → q.promise_.isSome = true))
    (hinv : WInv hs w) (hw : w.withPromise h m = .ok w1) : WInv hs w1 := by
  unfold World.withPromise at hw
  cases hf : w.frames h with
  | none => simp [hf] at hw
  | some f =>
    cases hq : m f.promise with
    | error e => simp [hf, hq] at hw
    | ok q =>
      simp [hf, hq] at hw
      subst hw
      obtain ⟨hr, hp⟩ := hm _ _ hq
      exact WInv_setFrame hinv hf rfl hr (fun h => h)
        (fun hdn => hp ((hinv.1 h f hf).2.2.1 hdn))

theorem notDone_withPromise {w w1 : World T} {id h : Nat}
    {m : promise_type T → Except Fault (promise_type T)}
    (hn : notDone w id) (hw : w.withPromise h m = .ok w1) : notDone w1 id := by
  unfold World.withPromise at hw
  cases hf : w.frames h with
  | none => simp [hf] at hw
  | some f =>
    cases hq : m f.promise with
    | error e => simp [hf, hq] at hw
    | ok q =>
      simp [hf, hq] at hw
      subst hw
      exact notDone_setFrame hn hf rfl

theorem WInv_final_suspend {hs : Nat → Option task} {w w1 : World T} {id : Nat}
    {f : Frame T} {nxt : Option Nat} (hinv : WInv hs w) (hf : w.frames id = some f)
    (hnd : f.done = false) (hp : f.promise.promise_.isSome = true)
    (hw : promise_base.final_suspend w id = .ok (w1, nxt)) : WInv hs w1 := by
  have hdone : WInv hs (w.setFrame id { f with done := true }) :=
    WInv_setFrame hinv hf rfl rfl (fun _ => rfl) (fun _ => hp)
  have hok := hinv.1 id f hf
  have h0 : f.destroyed = 0 := by
    rcases Nat.eq_zero_or_pos f.destroyed with h | h
    · exact h
    · have := hok.2.1 h
      rw [hnd] at this
      cases this
  simp only [promise_base.final_suspend, hf, promise_base.final_suspend.await_suspend,
    setFrame_frames_same] at hw
  cases hc : f.promise.continuation_ with
  | some c =>
    simp [hc] at hw
    rw [← hw.1]
    exact hdone
  | none =>
    cases hr : f.promise.release_detached_ with
    | none =>
      simp [hc, hr] at hw
      rw [← hw.1]
      exact hdone
    | some r =>
      have hrid : r = id := hok.2.2.2 r hr
      subst hrid
      simp [hc, hr, coroutine_handle.destroy] at hw
      rw [← hw.1]
      refine (WInv_log _).2 ?_
      obtain ⟨h1, h2, h3⟩ := hdone
      refine ⟨?_, ?_, ?_⟩
      · intro j fj hj
        by_cases hji : j = r
        · subst hji
          simp at hj
          subst hj
          exact ⟨by simp [h0], fun _ => rfl, fun _ => hp, fun q hq => hok.2.2.2 q hq⟩
        · rw [setFrame_frames_ne _ _ _ _ hji] at hj
          exact h1 j fj hj
      · intro j hj
        by_cases hji : j = r
        · subst hji
          have := hinv.2.1 j hj
          rw [hf] at this
          cases this
        · rw [setFrame_frames_ne _ _ _ _ hji]
          exact h2 j hj
      · intro i t hi hdet
        obtain ⟨k, fk, hk1, hk2, hk3, hk4⟩ := hinv.2.2 i t hi hdet
        have hki : k ≠ r := by
          intro hkr
          subst hkr
          rw [hf] at hk2
          cases hk2
          rw [hr] at hk4
          cases hk4
        exact ⟨k, fk, hk1, by simp [setFrame_frames_ne _ _ _ _ hki, hk2], hk3, hk4⟩

theorem WInv_co_return_stmt {hs : Nat → Option task} {w w1 : World T} {id : Nat} {v : T}
    {nxt : Option Nat} (hinv : WInv hs w) (hn : notDone w id)
    (hw : co_return_stmt w id v = .ok (w1, nxt)) : WInv hs w1 := by
  unfold co_return_stmt at hw
  cases hq : w.withPromise id (fun p => value_returner.return_value p v) with
  | error e => simp [hq] at hw
  | ok w0 =>
    simp only [hq] at hw
    have hinv0 : WInv hs w0 := by
      refine WInv_withPromise ?_ hinv hq
      intro p q hpq
      simp only [value_returner.return_value, std_promise_set_value] at hpq
      cases hpp : p.promise_ with
      | some o => simp [hpp] at hpq
      | none =>
        simp [hpp] at hpq
        subst hpq
        simp
    unfold World.withPromise at hq
    cases hf : w.frames id with
    | none => simp [hf] at hq
    | some f =>
      simp only [hf, value_returner.return_value, std_promise_set_value] at hq
      cases hpp : f.promise.promise_ with
      | some o => simp [hpp] at hq
      | none =>
        simp [hpp] at hq
        subst hq
        refine WInv_final_suspend ((WInv_log _).2 hinv0) (setFrame_frames_same _ _ _) ?_ ?_ hw
        · exact hn f hf
        · rfl

theorem WInv_throw_stmt {hs : Nat → Option task} {w w1 : World T} {id : Nat} {e : Failure}
    {nxt : Option Nat} (hinv : WInv hs w) (hn : notDone w id)
    (hw : throw_stmt w id e = .ok (w1, nxt)) : WInv hs w1 := by
  unfold throw_stmt at hw
  cases hq : w.withPromise id (fun p => promise_type.unhandled_exception p e) with
  | error e => simp [hq] at hw
  | ok w0 =>
    simp only [hq] at hw
    have hinv0 : WInv hs w0 := by
      refine WInv_withPromise ?_ hinv hq
      intro p q hpq
      simp only [promise_type.unhandled_exception, std_promise_set_exception] at hpq
      cases hpp : p.promise_ with
      | some o => simp [hpp] at hpq
      | none =>
        simp [hpp] at hpq
        subst hpq
        simp
    unfold World.withPromise at hq
    cases hf : w.frames id with
    | none => simp [hf] at hq
    | some f =>
      simp only [hf, promise_type.unhandled_exception, std_promise_set_exception] at hq
      cases hpp : f.promise.promise_ with
      | some o => simp [hpp] at hq
      | none =>
        simp [hpp] at hq
        subst hq
        refine WInv_final_suspend ((WInv_log _).2 hinv0) (setFrame_frames_same _ _ _) ?_ ?_ hw
        · exact hn f hf
        · rfl

theorem WInv_await_resume {hs : Nat → Option task} {w w1 : World T} {h : Nat}
    {o : Outcome T} (hinv : WInv hs w)
    (hw : task_awaiter.await_resume w h = .ok (o, w1)) : WInv hs w1 := by
  unfold task_awaiter.await_resume at hw
  cases hf : w.frames h with
  | none => simp [hf] at hw
  | some f =>
    simp only [hf, std_future_get] at hw
    cases hv : f.promise.future_ with
    | false => simp [hv] at hw
    | true =>
      cases hpp : f.promise.promise_ with
      | none => simp [hv, hpp] at hw
      | some o1 =>
        simp [hv, hpp] at hw
        rw [← hw.2]
        exact WInv_setFrame hinv hf rfl rfl (fun h => h)
          (fun _ => by simp [hpp])

theorem notDone_await_resume {w w1 : World T} {id h : Nat} {o : Outcome T}
    (hn : notDone w id) (hw : task_awaiter.await_resume w h = .ok (o, w1)) :
    notDone w1 id := by
  unfold task_awaiter.await_resume at hw
  cases hf : w.frames h with
  | none => simp [hf] at hw
  | some f =>
    simp only [hf, std_future_get] at hw
    cases hv : f.promise.future_ with
    | false => simp [hv] at hw
    | true =>
      cases hpp : f.promise.promise_ with
      | none => simp [hv, hpp] at hw
      | some o1 =>
        simp [hv, hpp] at hw
        rw [← hw.2]
        exact notDone_setFrame hn hf rfl

theorem WInv_saveCode {hs : Nat → Option task} {w w1 : World T} {id : Nat} {c : Code T}
    (hinv : WInv hs w) (hw : w.saveCode id c = .ok w1) : WInv hs w1 := by
  unfold World.saveCode at hw
  cases hf : w.frames id with
  | none => simp [hf] at hw
  | some f =>
    simp [hf] at hw
    subst hw
    exact WInv_setFrame hinv hf rfl rfl (fun h => h) (fun hdn => (hinv.1 id f hf).2.2.1 hdn)

theorem WInv_deliver {hs : Nat → Option task} {id h : Nat} {k : T → Code T}
    (ih : ∀ (v : T) (w w1 : World T) (nxt : Option Nat), WInv hs w → notDone w id →
      runBody id (k v) w = .ok (w1, nxt) → WInv hs w1)
    {w w1 : World T} {nxt : Option Nat} (hinv : WInv hs w) (hn : notDone w id)
    (hw : (match task_awaiter.await_resume w h with
      | Except.error e => Except.error e
      | Except.ok (Outcome.value v, w0) => runBody id (k v) w0
      | Except.ok (Outcome.failure e, w0) => throw_stmt w0 id e) = Except.ok (w1, nxt)) :
    WInv hs w1 := by
  cases ha : task_awaiter.await_resume w h with
  | error e => simp [ha] at hw
  | ok p =>
    obtain ⟨o, w0⟩ := p
    have hinv0 := WInv_await_resume hinv ha
    have hn0 := notDone_await_resume hn ha
    cases o with
    | value v =>
      simp only [ha] at hw
      exact ih v w0 w1 nxt hinv0 hn0 hw
    | failure e =>
      simp only [ha] at hw
      exact WInv_throw_stmt hinv0 hn0 hw

theorem WInv_runBody {hs : Nat → Option task} (id : Nat) (c : Code T) :
    ∀ (w w1 : World T) (nxt : Option Nat), WInv hs w → notDone w id →
      runBody id c w = .ok (w1, nxt) → WInv hs w1 := by
  induction c with
  | co_return v =>
    intro w w1 nxt hinv hn hw
    simp only [runBody] at hw
    exact WInv_co_return_stmt hinv hn hw
  | throw e =>
    intro w w1 nxt hinv hn hw
    simp only [runBody] at hw
    exact WInv_throw_stmt hinv hn hw
  | co_await h k ih =>
    intro w w1 nxt hinv hn hw
    simp only [runBody] at hw
    cases hr : task_awaiter.await_ready w h with
    | error e => simp [hr] at hw
    | ok b =>
      cases b with
      | true =>
        simp only [hr] at hw
        exact WInv_deliver ih hinv hn hw
      | false =>
        simp only [hr] at hw
        cases hs1 : task_awaiter.await_suspend w h id with
        | error e => simp [hs1] at hw
        | ok w0 =>
          simp only [hs1] at hw
          cases hs2 : w0.saveCode id (.await_resume h k) with
          | error e => simp [hs2] at hw
          | ok w2 =>
            simp [hs2] at hw
            rw [← hw.1]
            refine WInv_saveCode (WInv_withPromise ?_ hinv hs1) hs2
            intro p q hpq
            simp at hpq
            subst hpq
            simp
  | await_resume h k ih =>
    intro w w1 nxt hinv hn hw
    simp only [runBody] at hw
    exact WInv_deliver ih hinv hn hw
  | suspend k _ =>
    intro w w1 nxt hinv _ hw
    simp only [runBody] at hw
    cases hs2 : w.saveCode id k with
    | error e => simp [hs2] at hw
    | ok w2 =>
      simp [hs2] at hw
      rw [← hw.1]
      exact WInv_saveCode hinv hs2

theorem WInv_resume {hs : Nat → Option task} (fuel : Nat) :
    ∀ (w w1 : World T) (id : Nat), WInv hs w → resume fuel w id = .ok w1 → WInv hs w1 := by
  induction fuel with
  | zero =>
    intro w w1 id _ hw
    simp [resume] at hw
  | succ n ih =>
    intro w w1 id hinv hw
    simp only [resume] at hw
    cases hf : w.frames id with
    | none => simp [hf] at hw
    | some f =>
      simp only [hf] at hw
      cases hd : f.done with
      | true => simp [hd] at hw
      | false =>
        simp only [hd] at hw
        have hn : notDone (w.log (.resumed id)) id := by
          intro g hg
          simp only [log_frames, hf, Option.some.injEq] at hg
          rw [← hg]
          exact hd
        cases hb : runBody id f.code (w.log (.resumed id)) with
        | error e => simp [hb] at hw
        | ok p =>
          obtain ⟨w0, nxt⟩ := p
          have hinv0 := WInv_runBody id f.code _ _ _ ((WInv_log _).2 hinv) hn hb
          cases nxt with
          | none =>
            simp [hb] at hw
            rw [← hw]
            exact hinv0
          | some c =>
            simp [hb] at hw
            exact ih w0 w1 c hinv0 hw

theorem WInv_replace {hs hs1 : Nat → Option task} {w : World T} {h : Nat} {f g : Frame T}
    (hinv : WInv hs w) (hf : w.frames h = some f) (hg : frameOK h g)
    (hno : ∀ i t, hs1 i = some t → t.detached_ = false → owns w t ∧ t.h_ ≠ some h) :
    WInv hs1 (w.setFrame h g) := by
  obtain ⟨h1, h2, _⟩ := hinv
  refine ⟨?_, ?_, ?_⟩
  · intro j fj hj
    by_cases hji : j = h
    · subst hji
      simp at hj
      subst hj
      exact hg
    · rw [setFrame_frames_ne _ _ _ _ hji] at hj
      exact h1 j fj hj
  · intro j hj
    by_cases hji : j = h
    · subst hji
      have := h2 j hj
      rw [hf] at this
      cases this
    · rw [setFrame_frames_ne _ _ _ _ hji]
      exact h2 j hj
  · intro i t hi hdet
    obtain ⟨⟨k, fk, hk1, hk2, hk3, hk4⟩, hne⟩ := hno i t hi hdet
    have hkh : k ≠ h := fun hkh => hne (hkh ▸ hk1)
    exact ⟨k, fk, hk1, by rw [setFrame_frames_ne _ _ _ _ hkh]; exact hk2, hk3, hk4⟩

theorem owns_frame_lt {hs : Nat → Option task} {w : World T} {t : task}
    (hinv : WInv hs w) (ho : owns w t) : ∃ k, t.h_ = some k ∧ k < w.next := by
  obtain ⟨k, fk, hk1, hk2, _, _⟩ := ho
  refine ⟨k, hk1, ?_⟩
  by_contra hlt
  have := hinv.2.1 k (Nat.le_of_not_lt hlt)
  rw [hk2] at this
  cases this

theorem WInv_spawn {hs : Nat → Option task} {w w1 : World T} {body : Code T} {t : task}
    (n : Nat) (hinv : WInv hs w) (hw : spawn w body = .ok (w1, t)) :
    t = task.ctor w.next ∧
    WInv (fun j => if j = n then some (task.ctor w.next) else hs j) w1 := by
  have key : WInv (fun j => if j = n then some (task.ctor w.next) else hs j)
      (w.alloc body) := by
    refine ⟨?_, ?_, ?_⟩
    · intro j fj hj
      by_cases hji : j = w.next
      · subst hji
        simp [World.alloc] at hj
        subst hj
        simp [frameOK, promise_type.ctor]
      · simp [World.alloc, hji] at hj
        exact hinv.1 j fj hj
    · intro j hj
      simp only [World.alloc] at hj
      have hji : j ≠ w.next := by omega
      simp only [World.alloc, hji, if_false]
      exact hinv.2.1 j (by omega)
    · intro i u hi hdet
      by_cases hin : i = n
      · simp [hin] at hi
        subst hi
        exact ⟨w.next, _, rfl, alloc_frames_same w body, rfl, rfl⟩
      · simp [hin] at hi
        obtain ⟨k, fk, hk1, hk2, hk3, hk4⟩ := hinv.2.2 i u hi hdet
        have hkn : k ≠ w.next := by
          intro h
          subst h
          have := hinv.2.1 w.next (Nat.le_refl _)
          rw [hk2] at this
          cases this
        exact ⟨k, fk, hk1, by simp [World.alloc, hkn, hk2], hk3, hk4⟩
  have hn : notDone (w.alloc body) w.next := by
    intro g hg
    simp [World.alloc] at hg
    subst hg
    rfl
  simp only [spawn, promise_base.initial_suspend_ready, if_true] at hw
  cases hb : runBody w.next body (w.alloc body) with
  | error e => simp [hb] at hw
  | ok p =>
    obtain ⟨w0, nxt⟩ := p
    have hinv0 := WInv_runBody w.next body _ _ _ key hn hb
    cases nxt with
    | none =>
      simp [hb] at hw
      exact ⟨hw.2.symm, hw.1 ▸ hinv0⟩
    | some c =>
      simp only [hb] at hw
      cases hr : resume (w0.next + 1) w0 c with
      | error e => simp [hr] at hw
      | ok w2 =>
        simp [hr] at hw
        exact ⟨hw.2.symm, hw.1 ▸ WInv_resume _ _ _ _ hinv0 hr⟩

theorem Inv_empty : (Sys.empty : Sys T).Inv := by
  refine ⟨⟨?_, ?_, ?_⟩, ?_, ?_⟩ <;> simp [Sys.empty, World.empty]

theorem Inv_call {s s1 : Sys T} {body : Code T} (hinv : s.Inv)
    (hs : s.step (.call body) = .ok s1) : s1.Inv := by
  simp only [Sys.step] at hs
  cases hsp : spawn s.world body with
  | error e => simp [hsp] at hs
  | ok p =>
    obtain ⟨w, t⟩ := p
    obtain ⟨ht, hw⟩ := WInv_spawn s.nextHandle hinv.1 hsp
    simp [hsp] at hs
    subst hs
    subst ht
    refine ⟨hw, ?_, ?_⟩
    · intro i j t u hi hj hti hui htu
      simp only at hi hj
      by_cases hin : i = s.nextHandle <;> by_cases hjn : j = s.nextHandle
      · rw [hin, hjn]
      · simp [hin] at hi
        simp [hjn] at hj
        obtain ⟨k, hk1, hk2⟩ := owns_frame_lt hinv.1 (hinv.1.2.2 j u hj hui)
        rw [← hi, hk1] at htu
        simp [task.ctor] at htu
        omega
      · simp [hin] at hi
        simp [hjn] at hj
        obtain ⟨k, hk1, hk2⟩ := owns_frame_lt hinv.1 (hinv.1.2.2 i t hi hti)
        rw [← hj, hk1] at htu
        simp [task.ctor] at htu
        omega
      · simp [hin] at hi
        simp [hjn] at hj
        exact hinv.2.1 i j t u hi hj hti hui htu
    · intro i hi
      simp only at hi ⊢
      have hne : i ≠ s.nextHandle := by omega
      simp only [hne, if_false]
      exact hinv.2.2 i (by omega)

theorem Inv_move {s s1 : Sys T} {i : Nat} (hinv : s.Inv)
    (hs : s.step (.move i) = .ok s1) : s1.Inv := by
  simp only [Sys.step] at hs
  cases hh : s.handles i with
  | none => simp [hh] at hs
  | some other =>
    simp [hh, task.move_ctor] at hs
    subst hs
    have hilt : i ≠ s.nextHandle := by
      intro h
      have := hinv.2.2 i (by omega)
      rw [hh] at this
      cases this
    refine ⟨⟨hinv.1.1, hinv.1.2.1, ?_⟩, ?_, ?_⟩
    · intro j t hj hdet
      simp only at hj
      by_cases hjn : j = s.nextHandle
      · simp [hjn] at hj
        subst hj
        obtain ⟨k, fk, hk1, hk2⟩ := hinv.1.2.2 i other hh hdet
        exact ⟨k, fk, hk1, hk2⟩
      · by_cases hji : j = i
        · simp [hjn, hji, hilt] at hj
          subst hj
          cases hdet
        · simp [hjn, hji] at hj
          exact hinv.1.2.2 j t hj hdet
    · intro a b t u ha hb hta hub htu
      simp only at ha hb
      by_cases han : a = s.nextHandle <;> by_cases hbn : b = s.nextHandle
      · rw [han, hbn]
      · simp [han] at ha
        subst ha
        by_cases hbi : b = i
        · simp [hbn, hbi, hilt] at hb
          subst hb
          cases hub
        · simp [hbn, hbi] at hb
          exact absurd (hinv.2.1 i b other u hh hb hta hub htu).symm hbi
      · simp [hbn] at hb
        subst hb
        by_cases hai : a = i
        · simp [han, hai, hilt] at ha
          subst ha
          cases hta
        · simp [han, hai] at ha
          exact absurd (hinv.2.1 a i t other ha hh hta hub htu) hai
      · by_cases hai : a = i
        · simp [han, hai, hilt] at ha
          subst ha
          cases hta
        · by_cases hbi : b = i
          · simp [hbn, hbi, hilt] at hb
            subst hb
            cases hub
          · simp [han, hai] at ha
            simp [hbn, hbi] at hb
            exact hinv.2.1 a b t u ha hb hta hub htu
    · intro j hj
      simp only at hj ⊢
      have h1 : j ≠ s.nextHandle := by omega
      have h2 : j ≠ i := by
        intro h
        subst h
        have := hinv.2.2 j (by omega)
        rw [hh] at this
        cases this
      simp only [h1, h2, if_false]
      exact hinv.2.2 j (by omega)

theorem others_elsewhere {s : Sys T} {i h : Nat} {t : task} (hinv : s.Inv)
    (hi : s.handles i = some t) (hdet : t.detached_ = false) (hh : t.h_ = some h) :
    ∀ j u, j ≠ i → s.handles j = some u → u.detached_ = false →
      owns s.world u ∧ u.h_ ≠ some h := by
  intro j u hji hj hu
  refine ⟨hinv.1.2.2 j u hj hu, ?_⟩
  intro huh
  exact hji (hinv.2.1 j i u t hj hi hu hdet (huh.trans hh.symm))

theorem HInv_setHandle {hs : Nat → Option task} {n i : Nat} {t : task} {o : Option task}
    (hinv : HInv hs n) (hi : hs i = some t)
    (ho : ∀ u, o = some u → u.detached_ = true) :
    HInv (fun j => if j = i then o else hs j) n := by
  refine ⟨?_, ?_⟩
  · intro a b x y ha hb hx hy hxy
    simp only at ha hb
    by_cases hai : a = i
    · simp [hai] at ha
      have := ho x ha
      rw [hx] at this
      cases this
    · by_cases hbi : b = i
      · simp [hbi] at hb
        have := ho y hb
        rw [hy] at this
        cases this
      · simp [hai] at ha
        simp [hbi] at hb
        exact hinv.1 a b x y ha hb hx hy hxy
  · intro j hj
    have hji : j ≠ i := by
      intro h
      subst h
      have := hinv.2 j hj
      rw [hi] at this
      cases this
    simp only [hji, if_false]
    exact hinv.2 j hj

theorem frameOK_mark {h : Nat} {f : Frame T} (hf : frameOK h f) :
    frameOK h { f with promise := f.promise.set_detached_task h } := by
  obtain ⟨a, b, c, _⟩ := hf
  refine ⟨a, b, c, ?_⟩
  intro r hr
  simp [promise_type.set_detached_task] at hr
  exact hr.symm

theorem Inv_detach {s s1 : Sys T} {i : Nat} (hinv : s.Inv)
    (hs : s.step (.detach i) = .ok s1) : s1.Inv := by
  simp only [Sys.step] at hs
  cases hh : s.handles i with
  | none => simp [hh] at hs
  | some t =>
    simp only [hh, task.detach] at hs
    cases hdet : t.detached_ with
    | true => simp [hdet] at hs
    | false =>
      cases hth : t.h_ with
      | none => simp [hdet, hth] at hs
      | some h =>
        cases hf : s.world.frames h with
        | none => simp [hdet, hth, World.withPromise, hf] at hs
        | some f =>
          simp [hdet, hth, World.withPromise, hf, Sys.setHandle] at hs
          subst hs
          have hel := others_elsewhere hinv hh hdet hth
          refine ⟨WInv_replace hinv.1 hf (frameOK_mark (hinv.1.1 h f hf)) ?_,
            HInv_setHandle hinv.2 hh (fun u hu => by cases hu; rfl)⟩
          intro j u hj hu
          simp only at hj
          by_cases hji : j = i
          · simp [hji] at hj
            subst hj
            cases hu
          · simp [hji] at hj
            exact hel j u hji hj hu

theorem Inv_dtor {s s1 : Sys T} {i : Nat} (hinv : s.Inv)
    (hs : s.step (.dtor i) = .ok s1) : s1.Inv := by
  simp only [Sys.step] at hs
  cases hh : s.handles i with
  | none => simp [hh] at hs
  | some t =>
    simp only [hh] at hs
    cases hd : task.dtor s.world t with
    | error e => simp [hd] at hs
    | ok p =>
      obtain ⟨w, st⟩ := p
      simp [hd, Sys.setHandle] at hs
      subst hs
      refine ⟨?_, HInv_setHandle hinv.2 hh (fun u hu => by cases hu)⟩
      simp only
      unfold task.dtor at hd
      cases hdet : t.detached_ with
      | true =>
        simp [hdet] at hd
        rw [← hd.1]
        refine ⟨hinv.1.1, hinv.1.2.1, ?_⟩
        intro j u hj hu
        by_cases hji : j = i
        · simp [hji] at hj
        · simp [hji] at hj
          exact hinv.1.2.2 j u hj hu
      | false =>
        obtain ⟨k, f, hk1, hf, hf0, hfr⟩ := hinv.1.2.2 i t hh hdet
        have hel := others_elsewhere hinv hh hdet hk1
        have hno : ∀ j u, (if j = i then none else s.handles j) = some u →
            u.detached_ = false → owns s.world u ∧ u.h_ ≠ some k := by
          intro j u hj hu
          by_cases hji : j = i
          · simp [hji] at hj
          · simp [hji] at hj
            exact hel j u hji hj hu
        have hok := hinv.1.1 k f hf
        simp only [hdet, hk1, coroutine_handle.done, hf, Bool.not_false, if_true] at hd
        cases hdone : f.done with
        | false =>
          simp only [hdone, World.withPromise, hf] at hd
          have hw : w = s.world.setFrame k { f with promise := f.promise.set_detached_task k } := by
            split at hd
            · cases hd
            · split at hd
              · cases hd
              · simp only [Except.ok.injEq, Prod.mk.injEq] at hd
                rw [← hd.1, hdone]
              · simp only [Except.ok.injEq, Prod.mk.injEq] at hd
                rw [← hd.1, hdone]
          rw [hw]
          exact WInv_replace hinv.1 hf (frameOK_mark hok) hno
        | true =>
          simp [hdone, coroutine_handle.destroy, hf] at hd
          rw [← hd.1]
          refine (WInv_log _).2 (WInv_replace hinv.1 hf ?_ hno)
          exact ⟨by simp [hf0], fun _ => rfl, fun _ => hok.2.2.1 hdone,
            fun r hr => hok.2.2.2 r hr⟩

theorem Inv_get {s s1 : Sys T} {i : Nat} (hinv : s.Inv)
    (hs : s.step (.get i) = .ok s1) : s1.Inv := by
  simp only [Sys.step] at hs
  cases hh : s.handles i with
  | none => simp [hh] at hs
  | some t =>
    simp only [hh] at hs
    cases hg : task.get_future_get s.world t with
    | error e => simp [hg] at hs
    | ok p =>
      obtain ⟨o, w⟩ := p
      simp [hg] at hs
      subst hs
      refine ⟨?_, hinv.2⟩
      unfold task.get_future_get at hg
      cases hth : t.h_ with
      | none => simp [hth] at hg
      | some h =>
        have hg1 : task_awaiter.await_resume s.world h = .ok (o, w) := by
          simpa [hth, task_awaiter.await_resume] using hg
        exact WInv_await_resume hinv.1 hg1

theorem Inv_resume {s s1 : Sys T} {id : Nat} (hinv : s.Inv)
    (hs : s.step (.resume id) = .ok s1) : s1.Inv := by
  simp only [Sys.step] at hs
  cases hr : resume (s.world.next + 1) s.world id with
  | error e => simp [hr] at hs
  | ok w =>
    simp [hr] at hs
    subst hs
    exact ⟨WInv_resume _ _ _ _ hinv.1 hr, hinv.2⟩

theorem Inv_step {s s1 : Sys T} (op : Op T) (hinv : s.Inv) (hs : s.step op = .ok s1) :
    s1.Inv := by
  cases op with
  | call body => exact Inv_call hinv hs
  | move i => exact Inv_move hinv hs
  | detach i => exact Inv_detach hinv hs
  | dtor i => exact Inv_dtor hinv hs
  | get i => exact Inv_get hinv hs
  | resume id => exact Inv_resume hinv hs

theorem Inv_run (ops : List (Op T)) :
    ∀ (s s1 : Sys T), s.Inv → s.run ops = .ok s1 → s1.Inv := by
  induction ops with
  | nil =>
    intro s s1 hinv hs
    simp [Sys.run] at hs
    exact hs ▸ hinv
  | cons op ops ih =>
    intro s s1 hinv hs
    simp only [Sys.run] at hs
    cases h1 : s.step op with
    | error e => simp [h1] at hs
    | ok s2 =>
      simp only [h1] at hs
      exact ih s2 s1 (Inv_step op hinv h1) hs

/-! ## Creation and immediate return -/

/-- C1: a task whose body immediately returns `v` runs to completion during
creation: `initial_suspend` does not suspend, the handle returned by the call
names a frame that is already done with `v` in its result slot, and the first
`get_future().get()` returns exactly `v`. -/
theorem spawn_co_return_completed (w : World T) (v : T) :
    promise_base.initial_suspend_ready = true ∧
    ∃ w1, spawn w (.co_return v) = .ok (w1, task.ctor w.next) ∧
      w1.frames w.next = some
        { promise := { promise_ := some (.value v), future_ := true,
                       continuation_ := none, release_detached_ := none },
          code := .co_return v, done := true, destroyed := 0 } ∧
      ∃ w2, task.get_future_get w1 (task.ctor w.next) = .ok (.value v, w2) := by
  refine ⟨rfl, ?_⟩
  simp [spawn, World.alloc, promise_base.initial_suspend_ready, runBody, co_return_stmt, World.withPromise,
    value_returner.return_value, std_promise_set_value, promise_type.ctor,
    promise_base.final_suspend, promise_base.final_suspend.await_suspend, task.ctor,
    task.get_future_get, std_future_get]

/-! ## Failures -/

/-- C2: a task whose body raises `e` unhandled reaches the final suspend point
with the failure `e` in its result slot.  The caller that created it gets the
handle back, and a driver that resumed it gets control back, without seeing
the failure; `get_future().get()` and `task_awaiter::await_resume` re-raise
`e`, and a waiter without a handler completes with `e` in turn. -/
theorem unhandled_failure_captured (w : World T) (e : Failure) (k : T → Code T) :
    (∃ w1, spawn w (.throw e) = .ok (w1, task.ctor w.next) ∧
      w1.frames w.next = some
        { promise := { promise_ := some (.failure e), future_ := true,
                       continuation_ := none, release_detached_ := none },
          code := .throw e, done := true, destroyed := 0 } ∧
      (∃ w2, task.get_future_get w1 (task.ctor w.next) = .ok (.failure e, w2)) ∧
      (∃ w2, task_awaiter.await_resume w1 w.next = .ok (.failure e, w2)) ∧
      (∃ w2 f, spawn w1 (.co_await w.next k) = .ok (w2, task.ctor (w.next + 1)) ∧
        w2.frames (w.next + 1) = some f ∧ f.done = true ∧
        f.promise.promise_ = some (.failure e))) ∧
    (∃ w1 w2, spawn w (.suspend (.throw e)) = .ok (w1, task.ctor w.next) ∧
      resume 1 w1 w.next = .ok w2 ∧
      w2.frames w.next = some
        { promise := { promise_ := some (.failure e), future_ := true,
                       continuation_ := none, release_detached_ := none },
          code := .throw e, done := true, destroyed := 0 } ∧
      ∃ w3, task.get_future_get w2 (task.ctor w.next) = .ok (.failure e, w3)) := by
  constructor
  · simp [spawn, World.alloc, promise_base.initial_suspend_ready, runBody, throw_stmt, World.withPromise,
      promise_type.unhandled_exception, std_promise_set_exception, promise_type.ctor,
      promise_base.final_suspend, promise_base.final_suspend.await_suspend, task.ctor,
      task.get_future_get, std_future_get, task_awaiter.await_resume,
      task_awaiter.await_ready, coroutine_handle.done]
  · simp [spawn, World.alloc, promise_base.initial_suspend_ready, runBody, throw_stmt, World.withPromise,
      promise_type.unhandled_exception, std_promise_set_exception, promise_type.ctor,
      promise_base.final_suspend, promise_base.final_suspend.await_suspend, task.ctor,
      task.get_future_get, std_future_get, World.saveCode, resume]

/-- The failure "boom" of the specification's scenario. -/
theorem unhandled_failure_boom :
    ∃ w1 w2, spawn (World.empty : World Int) (.throw "boom") = .ok (w1, task.ctor 0) ∧
      task.get_future_get w1 (task.ctor 0) = .ok (.failure "boom", w2) := by
  simp [spawn, World.alloc, promise_base.initial_suspend_ready, runBody, throw_stmt, World.withPromise,
    promise_type.unhandled_exception, std_promise_set_exception, promise_type.ctor,
    promise_base.final_suspend, promise_base.final_suspend.await_suspend, task.ctor,
    task.get_future_get, std_future_get, World.empty]

/-! ## Retrieval -/

/-- C3, as stated, fails: after `co_return 42` the first `get_future().get()`
returns 42, and a second retrieval, through `get_future().get()` or through
`await_resume`, finds `future_` without shared state. -/
theorem second_retrieval_differs :
    ∃ w1 w2, spawn (World.empty : World Int) (.co_return 42) = .ok (w1, task.ctor 0) ∧
      task.get_future_get w1 (task.ctor 0) = .ok (.value 42, w2) ∧
      task.get_future_get w2 (task.ctor 0) = .error .no_state ∧
      task_awaiter.await_resume w2 0 = .error .no_state := by
  simp [spawn, World.alloc, promise_base.initial_suspend_ready, runBody, co_return_stmt, World.withPromise,
    value_returner.return_value, std_promise_set_value, promise_type.ctor,
    promise_base.final_suspend, promise_base.final_suspend.await_suspend, task.ctor,
    task.get_future_get, std_future_get, World.empty, task_awaiter.await_resume]

/-- C3, amended: for a completed task whose future has not been read, the
first retrieval, through `get_future().get()` or through `await_resume`,
returns or raises the stored outcome and changes nothing but the validity of
`future_`; both paths read that one future, so a retrieval after the first has
no shared state to read. -/
theorem first_retrieval_only (w : World T) (h : Nat) (f : Frame T) (o : Outcome T)
    (hf : w.frames h = some f) (ho : f.promise.promise_ = some o)
    (hv : f.promise.future_ = true) :
    task.get_future_get w (task.ctor h) =
      .ok (o, w.setFrame h { f with promise := { f.promise with future_ := false } }) ∧
    task_awaiter.await_resume w h =
      .ok (o, w.setFrame h { f with promise := { f.promise with future_ := false } }) ∧
    task.get_future_get (w.setFrame h { f with promise := { f.promise with future_ := false } })
      (task.ctor h) = .error .no_state ∧
    task_awaiter.await_resume
      (w.setFrame h { f with promise := { f.promise with future_ := false } }) h =
      .error .no_state := by
  simp [task.get_future_get, task_awaiter.await_resume, std_future_get, task.ctor, hf, ho, hv]

/-- C3, amended, at the task that returned 42. -/
theorem first_retrieval_only_witness :
    ((World.empty : World Int).setFrame 0 done42).frames 0 = some done42 ∧
    task.get_future_get ((World.empty : World Int).setFrame 0 done42) (task.ctor 0) =
      .ok (.value 42, ((World.empty : World Int).setFrame 0 done42).setFrame 0
        { done42 with promise := { done42.promise with future_ := false } }) :=
  ⟨by simp, (first_retrieval_only _ 0 done42 (.value 42) (by simp) rfl rfl).1⟩

/-! ## Cooperative wait -/

/-- C5: when coroutine `id` finishes with outcome `o`, the completion step
writes `o` into the result slot and marks the frame done, and then: with a
continuation `c`, hands control to `c` and destroys nothing, whatever the
release link; with no continuation and the release link set (to the frame
itself), destroys the frame; with neither, leaves the frame alive and done. -/
theorem completion_step (w : World T) (id : Nat) (f : Frame T) (o : Outcome T)
    (hf : w.frames id = some f) (hp : f.promise.promise_ = none) :
    (∀ c, f.promise.continuation_ = some c →
      ∃ w1, finish w id o = .ok (w1, some c) ∧
        w1.frames id = some
          { f with promise := { f.promise with promise_ := some o }, done := true } ∧
        (∀ j, j ≠ id → w1.frames j = w.frames j) ∧
        w1.trace = w.trace ++ [.result_written id]) ∧
    (f.promise.continuation_ = none → f.promise.release_detached_ = some id →
      ∃ w1, finish w id o = .ok (w1, none) ∧
        w1.frames id = some
          { f with promise := { f.promise with promise_ := some o }, done := true,
                   destroyed := f.destroyed + 1 } ∧
        (∀ j, j ≠ id → w1.frames j = w.frames j) ∧
        w1.trace = w.trace ++ [.result_written id, .destroyed id]) ∧
    (f.promise.continuation_ = none → f.promise.release_detached_ = none →
      ∃ w1, finish w id o = .ok (w1, none) ∧
        w1.frames id = some
          { f with promise := { f.promise with promise_ := some o }, done := true } ∧
        (∀ j, j ≠ id → w1.frames j = w.frames j) ∧
        w1.trace = w.trace ++ [.result_written id]) := by
  refine ⟨?_, ?_, ?_⟩
  · intro c hc
    cases o <;>
      simp +contextual [finish, co_return_stmt, throw_stmt,
        World.withPromise, value_returner.return_value,
        promise_type.unhandled_exception, std_promise_set_value, std_promise_set_exception,
        promise_base.final_suspend, promise_base.final_suspend.await_suspend, hf, hp, hc]
  · intro hc hr
    cases o <;>
      simp +contextual [finish, co_return_stmt, throw_stmt,
        World.withPromise, value_returner.return_value,
        promise_type.unhandled_exception, std_promise_set_value, std_promise_set_exception,
        promise_base.final_suspend, promise_base.final_suspend.await_suspend,
        coroutine_handle.destroy, hf, hp, hc, hr]
  · intro hc hr
    cases o <;>
      simp +contextual [finish, co_return_stmt, throw_stmt,
        World.withPromise, value_returner.return_value,
        promise_type.unhandled_exception, std_promise_set_value, std_promise_set_exception,
        promise_base.final_suspend, promise_base.final_suspend.await_suspend, hf, hp, hc, hr]

/-- Result of the completion step: outcome written, frame done, then the
choice made by `await_suspend` of the final awaiter. -/
theorem finish_eq (w : World T) (id : Nat) (f : Frame T) (o : Outcome T)
    (hf : w.frames id = some f) (hp : f.promise.promise_ = none) :
    finish w id o =
      promise_base.final_suspend.await_suspend
        (((w.setFrame id { f with promise := { f.promise with promise_ := some o } }).log
            (.result_written id)).setFrame id
          { f with promise := { f.promise with promise_ := some o }, done := true })
        f.promise.release_detached_ id := by
  cases o <;>
    simp [finish, co_return_stmt, throw_stmt, World.withPromise, value_returner.return_value,
      promise_type.unhandled_exception, std_promise_set_value, std_promise_set_exception,
      promise_base.final_suspend, hf, hp]

/-- C5 at a frame that is awaited by coroutine 1 and also marked for release:
control goes to coroutine 1 and the frame is not destroyed. -/
theorem completion_step_witness :
    ((World.empty : World Int).setFrame 0 awaited42).frames 0 = some awaited42 ∧
    ∃ w1, finish ((World.empty : World Int).setFrame 0 awaited42) 0 (.value 42) =
        .ok (w1, some 1) ∧ destroyCount w1 0 = 0 :=
  ⟨by simp, by
    obtain ⟨w1, h1, h2, -, -⟩ :=
      (completion_step ((World.empty : World Int).setFrame 0 awaited42) 0 awaited42 (.value 42)
        (by simp) rfl).1 1 rfl
    exact ⟨w1, h1, by simp [destroyCount, h2, awaited42]⟩⟩

/-! ## Destruction of the handle -/

/-- C6, as stated, fails: a task that is awaited and not yet done, whose
non-detached handle is destroyed, is marked for release, and when it completes
control goes to the waiter; the frame is done and was never destroyed. -/
theorem dtor_pending_awaited_not_freed :
    ∃ w1 w2 w3 w4,
      spawn (World.empty : World Int) (.suspend (.co_return 42)) = .ok (w1, task.ctor 0) ∧
      spawn w1 (.co_await 0 (fun r => .co_return (r + 1))) = .ok (w2, task.ctor 1) ∧
      task.dtor w2 (task.ctor 0) = .ok (w3, .blocked 0) ∧
      resume 2 w3 0 = .ok w4 ∧
      wait_returns w4 0 = true ∧
      coroutine_handle.done w4 0 = .ok true ∧
      coroutine_handle.done w4 1 = .ok true ∧
      destroyCount w4 0 = 0 := by
  simp [spawn, World.alloc, promise_base.initial_suspend_ready, runBody, co_return_stmt,
    World.withPromise, value_returner.return_value, std_promise_set_value,
    promise_type.ctor, promise_base.final_suspend, promise_base.final_suspend.await_suspend,
    task.ctor, task.get_future, std_future_get, std_future_wait, task_awaiter.await_resume,
    task_awaiter.await_ready, task_awaiter.await_suspend, coroutine_handle.done,
    World.saveCode, resume, task.dtor, promise_type.set_detached_task, wait_returns,
    destroyCount, World.empty]

/-- C6, amended: the destructor of a detached handle changes nothing; that of
a non-detached handle whose frame is done destroys the frame at once; that of a
non-detached handle whose frame is not done sets the release link to the frame
and blocks until the result slot is written, and the completion step then
destroys the frame provided no continuation is registered on it. -/
theorem dtor_cases (w : World T) (t : task) :
    (t.detached_ = true → task.dtor w t = .ok (w, .returned)) ∧
    (∀ h f, t.detached_ = false → t.h_ = some h → w.frames h = some f → f.done = true →
      ∃ w1, task.dtor w t = .ok (w1, .returned) ∧
        w1.frames h = some { f with destroyed := f.destroyed + 1 } ∧
        (∀ j, j ≠ h → w1.frames j = w.frames j)) ∧
    (∀ h f, t.detached_ = false → t.h_ = some h → w.frames h = some f → f.done = false →
      f.promise.promise_ = none → f.promise.future_ = true →
      ∃ w1, task.dtor w t = .ok (w1, .blocked h) ∧
        w1.frames h = some
          { f with promise := { f.promise with release_detached_ := some h } } ∧
        (∀ j, j ≠ h → w1.frames j = w.frames j) ∧
        wait_returns w1 h = false ∧
        ∀ o, f.promise.continuation_ = none →
          ∃ w2, finish w1 h o = .ok (w2, none) ∧
            wait_returns w2 h = true ∧
            w2.frames h = some
              { f with promise := { f.promise with promise_ := some o,
                                                   release_detached_ := some h },
                       done := true, destroyed := f.destroyed + 1 }) := by
  refine ⟨?_, ?_, ?_⟩
  · intro hd
    simp [task.dtor, hd]
  · intro h f hd hh hf hdone
    simp +contextual [task.dtor, hd, hh, hf, hdone, coroutine_handle.done,
      coroutine_handle.destroy]
  · intro h f hd hh hf hdone hp hv
    refine ⟨w.setFrame h { f with promise := { f.promise with release_detached_ := some h } },
      ?_, by simp, fun j hj => by simp [hj], by simp [wait_returns, hp], ?_⟩
    · simp [task.dtor, hd, hh, hf, hdone, coroutine_handle.done, World.withPromise,
        promise_type.set_detached_task, task.get_future, std_future_wait, hv, hp]
    · intro o hc
      cases o <;>
        simp [finish, co_return_stmt, throw_stmt, World.withPromise,
          value_returner.return_value, promise_type.unhandled_exception,
          std_promise_set_value, std_promise_set_exception, promise_base.final_suspend,
          promise_base.final_suspend.await_suspend, coroutine_handle.destroy, wait_returns,
          hp, hc]

/-- C6, amended, at a pending frame: the destructor blocks, and the completion
destroys the frame. -/
theorem dtor_cases_witness :
    ((World.empty : World Int).setFrame 0 pending42).frames 0 = some pending42 ∧
    ∃ w1 w2, task.dtor ((World.empty : World Int).setFrame 0 pending42) (task.ctor 0) =
        .ok (w1, .blocked 0) ∧
      finish w1 0 (.value 42) = .ok (w2, none) ∧ destroyCount w2 0 = 1 :=
  ⟨by simp, by
    obtain ⟨w1, h1, -, -, -, h5⟩ :=
      (dtor_cases ((World.empty : World Int).setFrame 0 pending42) (task.ctor 0)).2.2
        0 pending42 rfl rfl (by simp) rfl rfl rfl
    obtain ⟨w2, h6, -, h8⟩ := h5 (.value 42) rfl
    exact ⟨w1, w2, h1, h6, by simp [destroyCount, h8, pending42]⟩⟩

/-! ## Detachment -/

/-- C7 fails on the code: a task whose body returns 7 is done when the call
returns; `detach()` then sets the release link and the detached flag, the
destructor of the detached handle does nothing, and the completion step has
already run, so the frame is never destroyed. -/
theorem detach_after_completion_leaks :
    ∃ w1 w2 t2 w3,
      spawn (World.empty : World Int) (.co_return 7) = .ok (w1, task.ctor 0) ∧
      coroutine_handle.done w1 0 = .ok true ∧
      task.detach w1 (task.ctor 0) = .ok (w2, t2) ∧
      task.dtor w2 t2 = .ok (w3, .returned) ∧
      destroyCount w3 0 = 0 ∧
      w3.trace = [.result_written 0] ∧
      resume 1 w3 0 = .error .invalid_resume :=
  ⟨_, _, _, _, rfl, rfl, rfl, rfl, rfl, rfl, rfl⟩

/-- C8: for a frame whose computation has not completed (its result slot is
unset) and that has no continuation, `detach()` on its non-detached handle
followed by the completion of the computation destroys the frame in the
completion step, and the destructor of the detached handle then changes
nothing. -/
theorem detach_then_complete_destroys (w : World T) (t : task) (h : Nat) (f : Frame T)
    (o : Outcome T) (hd : t.detached_ = false) (hh : t.h_ = some h)
    (hf : w.frames h = some f) (hp : f.promise.promise_ = none)
    (hc : f.promise.continuation_ = none) :
    ∃ w1 t1 w2, task.detach w t = .ok (w1, t1) ∧
      finish w1 h o = .ok (w2, none) ∧
      destroyCount w2 h = destroyCount w h + 1 ∧
      w2.trace = w.trace ++ [.result_written h, .destroyed h] ∧
      task.dtor w2 t1 = .ok (w2, .returned) := by
  have h1 : task.detach w t =
      .ok (w.setFrame h { f with promise := f.promise.set_detached_task h },
        { t with detached_ := true }) := by
    simp [task.detach, hd, hh, hf, World.withPromise]
  have h2 : ∃ w2,
      finish (w.setFrame h { f with promise := f.promise.set_detached_task h }) h o =
        .ok (w2, none) ∧
      destroyCount w2 h = destroyCount w h + 1 ∧
      w2.trace = w.trace ++ [.result_written h, .destroyed h] := by
    rw [finish_eq _ h { f with promise := f.promise.set_detached_task h } o (by simp)
      (by simp [promise_type.set_detached_task, hp])]
    simp [promise_base.final_suspend.await_suspend, promise_type.set_detached_task, hc,
      coroutine_handle.destroy, destroyCount, hf]
  obtain ⟨w2, h3, h4, h5⟩ := h2
  exact ⟨_, _, w2, h1, h3, h4, h5, by simp [task.dtor]⟩

/-- C8 at a pending frame about to return 42. -/
theorem detach_then_complete_destroys_witness :
    ((World.empty : World Int).setFrame 0 pending42).frames 0 = some pending42 ∧
    ∃ w1 t1 w2, task.detach ((World.empty : World Int).setFrame 0 pending42) (task.ctor 0) =
        .ok (w1, t1) ∧
      finish w1 0 (.value 42) = .ok (w2, none) ∧
      destroyCount w2 0 = destroyCount ((World.empty : World Int).setFrame 0 pending42) 0 + 1 ∧
      w2.trace = ((World.empty : World Int).setFrame 0 pending42).trace ++
        [.result_written 0, .destroyed 0] ∧
      task.dtor w2 t1 = .ok (w2, .returned) :=
  ⟨by simp,
   detach_then_complete_destroys ((World.empty : World Int).setFrame 0 pending42) (task.ctor 0)
     0 pending42 (.value 42) rfl rfl (by simp) rfl rfl⟩

/-! ## Moving the handle -/

/-- C9: move construction from a non-detached handle gives the destination the
state reference and leaves it non-detached, so that its destructor and its
`detach()` act as those of the original handle; the source is left detached
with a null state reference, so its destructor changes nothing; no frame is
changed by the move. -/
theorem move_ctor_from_owner (other : task) (hnd : other.detached_ = false) (w : World T) :
    (task.move_ctor other).1.h_ = other.h_ ∧
    (task.move_ctor other).1.detached_ = false ∧
    (task.move_ctor other).2.h_ = none ∧
    (task.move_ctor other).2.detached_ = true ∧
    task.dtor w (task.move_ctor other).2 = .ok (w, .returned) ∧
    task.dtor w (task.move_ctor other).1 = task.dtor w other ∧
    task.detach w (task.move_ctor other).1 = task.detach w other ∧
    (∀ (s : Sys T) (i : Nat), s.handles i = some other →
      ∃ s1, s.step (.move i) = .ok s1 ∧ s1.world = s.world ∧
        s1.handles s.nextHandle = some (task.move_ctor other).1) := by
  refine ⟨rfl, hnd, rfl, rfl, by simp [task.dtor, task.move_ctor], rfl, rfl, ?_⟩
  intro s i hi
  simp [Sys.step, hi]

/-- C9 at the handle of the first coroutine. -/
theorem move_ctor_from_owner_witness :
    (task.ctor 0).detached_ = false ∧
    (task.move_ctor (task.ctor 0)).1 = task.ctor 0 ∧
    (task.move_ctor (task.ctor 0)).2 = { h_ := none, detached_ := true } ∧
    task.dtor (World.empty : World Int) (task.move_ctor (task.ctor 0)).2 =
      .ok (World.empty, .returned) :=
  ⟨rfl, rfl, rfl,
    (move_ctor_from_owner (task.ctor 0) rfl (World.empty : World Int)).2.2.2.2.1⟩

/-! ## Lifetime of a frame -/

/-- C10: after any sequence of operations (coroutine calls, moves of handles,
`detach()`, destructors, retrievals, resumptions by the driver, with the
cooperative waits and completions these trigger) that runs without a fault,
every frame has been destroyed at most once, and a frame that has been
destroyed is done and has its result written. -/
theorem destroyed_once_and_only_when_done (ops : List (Op T)) (s : Sys T)
    (hrun : Sys.run Sys.empty ops = .ok s) (id : Nat) (f : Frame T)
    (hf : s.world.frames id = some f) :
    f.destroyed ≤ 1 ∧
    (0 < f.destroyed → f.done = true ∧ f.promise.promise_.isSome = true) := by
  obtain ⟨a, b, c, _⟩ := (Inv_run ops _ _ Inv_empty hrun).1.1 id f hf
  exact ⟨a, fun h => ⟨b h, c (b h)⟩⟩

/-- C10 on a run in which the frame is destroyed by its completion step. -/
theorem destroyed_once_and_only_when_done_witness :
    ∃ s f, Sys.run Sys.empty detachedRun = .ok s ∧ s.world.frames 0 = some f ∧
      f.destroyed = 1 ∧ f.destroyed ≤ 1 ∧
      (0 < f.destroyed → f.done = true ∧ f.promise.promise_.isSome = true) :=
  ⟨_, _, rfl, rfl, rfl, destroyed_once_and_only_when_done detachedRun _ rfl 0 _ rfl⟩

/-! ## The contract of `detach` -/

/-- C12: `detach()` on a non-detached handle sets the release link of its frame
to the frame itself and sets the detached flag of the handle; the result slot,
the future, the continuation link, the resumption point, the done flag, the
destroy count, every other frame and the event log are unchanged.  `detach()` on
a handle whose detached flag is set (by an earlier `detach()` or by a move) fails
its assertion, and so does the same operation on the object in a system. -/
theorem detach_contract (w : World T) (t : task) :
    (∀ h f, t.detached_ = false → t.h_ = some h → w.frames h = some f →
      ∃ w1, task.detach w t = .ok (w1, { h_ := some h, detached_ := true }) ∧
        w1.frames h = some
          { f with promise := { f.promise with release_detached_ := some h } } ∧
        (∀ j, j ≠ h → w1.frames j = w.frames j) ∧
        w1.trace = w.trace ∧ w1.next = w.next) ∧
    (t.detached_ = true → task.detach w t = .error .assertion) ∧
    (∀ (s : Sys T) (i : Nat), s.handles i = some t → t.detached_ = true →
      s.step (.detach i) = .error .assertion) ∧
    (∀ u : task, (task.move_ctor u).2.detached_ = true) := by
  refine ⟨?_, ?_, ?_, fun _ => rfl⟩
  · intro h f hd hh hf
    refine ⟨w.setFrame h { f with promise := { f.promise with release_detached_ := some h } },
      ?_, by simp, fun j hj => by simp [hj], rfl, rfl⟩
    cases t with
    | mk th td =>
      simp only at hd hh
      subst hd
      subst hh
      simp [task.detach, World.withPromise, hf, promise_type.set_detached_task]
  · intro hd
    simp [task.detach, hd]
  · intro s i hi hd
    simp [Sys.step, hi, task.detach, hd]

/-- C12 at a pending frame: the first `detach()` marks it, a second one on the
handle it returns fails the assertion. -/
theorem detach_contract_witness :
    pendingWorld.frames 0 = some pending42 ∧
    (∃ w1, task.detach pendingWorld (task.ctor 0) =
        .ok (w1, { h_ := some 0, detached_ := true }) ∧
      w1.frames 0 = some
        { pending42 with promise := { pending42.promise with release_detached_ := some 0 } } ∧
      task.detach w1 { h_ := some 0, detached_ := true } = .error .assertion) :=
  ⟨rfl, by
    obtain ⟨w1, h1, h2, -, -, -⟩ :=
      (detach_contract pendingWorld (task.ctor 0)).1 0 pending42 rfl rfl rfl
    exact ⟨w1, h1, h2, (detach_contract w1 { h_ := some 0, detached_ := true }).2.1 rfl⟩⟩

/-! ## Moving a detached handle -/

/-- C15: the destination of a move has the detached flag of the source, and
the source is detached afterwards; when the source is already detached, the
destructors of both the source and the destination return at once and leave
every frame as it was. -/
theorem move_ctor_inherits_detached (other : task) (w : World T) :
    (task.move_ctor other).1.detached_ = other.detached_ ∧
    (task.move_ctor other).1.h_ = other.h_ ∧
    (other.detached_ = true →
      (task.move_ctor other).1.detached_ = true ∧
      (task.move_ctor other).2.detached_ = true ∧
      task.dtor w (task.move_ctor other).1 = .ok (w, .returned) ∧
      task.dtor w (task.move_ctor other).2 = .ok (w, .returned)) := by
  refine ⟨rfl, rfl, ?_⟩
  intro hd
  refine ⟨hd, rfl, ?_, ?_⟩
  · simp [task.dtor, task.move_ctor, hd]
  · simp [task.dtor, task.move_ctor]

/-- C15 at a handle detached by `detach()` and at a moved-from handle, over a
world with a pending frame. -/
theorem move_ctor_inherits_detached_witness :
    ({ h_ := some 0, detached_ := true } : task).detached_ = true ∧
    task.dtor pendingWorld (task.move_ctor { h_ := some 0, detached_ := true }).1 =
      .ok (pendingWorld, .returned) ∧
    task.dtor pendingWorld (task.move_ctor (task.move_ctor (task.ctor 0)).2).1 =
      .ok (pendingWorld, .returned) :=
  ⟨rfl,
   ((move_ctor_inherits_detached { h_ := some 0, detached_ := true } pendingWorld).2.2 rfl).2.2.1,
   ((move_ctor_inherits_detached (task.move_ctor (task.ctor 0)).2 pendingWorld).2.2 rfl).2.2.1⟩

/-! ## Evolution of frames -/

theorem frameKeeps_refl (f : Frame T) : frameKeeps f f :=
  ⟨fun h => h, fun _ h => h, fun h => h⟩

theorem Evolves_refl (w : World T) : Evolves w w :=
  fun _ f hf => ⟨f, hf, frameKeeps_refl f⟩

theorem Evolves_trans {w w1 w2 : World T} (h1 : Evolves w w1) (h2 : Evolves w1 w2) :
    Evolves w w2 := by
  intro id f hf
  obtain ⟨g, hg, a, b, c⟩ := h1 id f hf
  obtain ⟨k, hk, a1, b1, c1⟩ := h2 id g hg
  exact ⟨k, hk, fun h => a1 (a h), fun o h => b1 o (b o h), fun h => c1 (c h)⟩

theorem Next_trans {w w1 w2 : World T} (h1 : Next w w1) (h2 : Next w1 w2) : Next w w2 :=
  ⟨h2.1, Evolves_trans h1.2 h2.2⟩

theorem written_log (w : World T) (e : Event) (id : Nat) :
    written (w.log e) id = written w id + (if e = .result_written id then 1 else 0) := by
  simp only [written, log_trace, List.count_append]
  by_cases h : e = .result_written id
  · simp [h]
  · simp [h, List.count_cons]

theorem written_setFrame (w : World T) (j : Nat) (g : Frame T) (id : Nat) :
    written (w.setFrame j g) id = written w id := rfl

theorem Next_log {w : World T} (e : Event) (hinv : SlotInv w)
    (he : ∀ id, e ≠ .result_written id) : Next w (w.log e) := by
  refine ⟨⟨?_, ?_⟩, fun id f hf => ⟨f, hf, frameKeeps_refl f⟩⟩
  · intro id f hf
    have h := hinv.1 id f hf
    simpa [slotOK, written_log, he id] using h
  · intro id hid
    have h := hinv.2 id hid
    simpa [written_log, he id] using h

theorem Next_setFrame {w : World T} {id : Nat} {f g : Frame T} (hinv : SlotInv w)
    (hf : w.frames id = some f) (hd : g.done = f.done)
    (hp : g.promise.promise_ = f.promise.promise_)
    (hc : f.promise.continuation_.isSome = true → g.promise.continuation_.isSome = true) :
    Next w (w.setFrame id g) := by
  refine ⟨⟨?_, ?_⟩, ?_⟩
  · intro j fj hj
    by_cases hji : j = id
    · subst hji
      simp at hj
      subst hj
      have h := hinv.1 j f hf
      simpa [slotOK, written_setFrame, hd, hp] using h
    · rw [setFrame_frames_ne _ _ _ _ hji] at hj
      exact hinv.1 j fj hj
  · intro j hj
    have hji : j ≠ id := by
      intro h
      subst h
      have := (hinv.2 j hj).1
      rw [hf] at this
      cases this
    rw [setFrame_frames_ne _ _ _ _ hji]
    exact hinv.2 j hj
  · intro j fj hj
    by_cases hji : j = id
    · subst hji
      rw [hf] at hj
      cases hj
      exact ⟨g, by simp, fun h => by rw [hd]; exact h, fun o h => by rw [hp]; exact h, hc⟩
    · exact ⟨fj, by rw [setFrame_frames_ne _ _ _ _ hji]; exact hj, frameKeeps_refl fj⟩

theorem Next_destroy {w w1 : World T} {r : Nat} (hinv : SlotInv w)
    (hw : coroutine_handle.destroy w r = .ok w1) : Next w w1 := by
  unfold coroutine_handle.destroy at hw
  cases hf : w.frames r with
  | none => simp [hf] at hw
  | some f =>
    simp [hf] at hw
    subst hw
    have h1 : Next w (w.setFrame r { f with destroyed := f.destroyed + 1 }) :=
      Next_setFrame hinv hf rfl rfl (fun h => h)
    exact Next_trans h1 (Next_log _ h1.1 (fun id => by simp))

theorem Next_finish {w w1 : World T} {id : Nat} {o : Outcome T} {nxt : Option Nat}
    (hinv : SlotInv w) (hw : finish w id o = .ok (w1, nxt)) :
    Next w w1 ∧ ∃ g, w1.frames id = some g ∧ g.done = true ∧ g.promise.promise_ = some o := by
  cases hf : w.frames id with
  | none =>
    cases o <;>
      simp [finish, co_return_stmt, throw_stmt, World.withPromise, hf] at hw
  | some f =>
    cases hp : f.promise.promise_ with
    | some o1 =>
      cases o <;>
        simp [finish, co_return_stmt, throw_stmt, World.withPromise, hf, hp,
          value_returner.return_value, promise_type.unhandled_exception,
          std_promise_set_value, std_promise_set_exception] at hw
    | none =>
      have hnd : f.done = false := by
        cases hd : f.done with
        | false => rfl
        | true =>
          obtain ⟨⟨o1, ho1⟩, _⟩ := (hinv.1 id f hf).2 hd
          rw [hp] at ho1
          cases ho1
      have hw0 : written w id = 0 := ((hinv.1 id f hf).1 hnd).2
      rw [finish_eq w id f o hf hp] at hw
      have hmid : Next w (((w.setFrame id
          { f with promise := { f.promise with promise_ := some o } }).log
          (.result_written id)).setFrame id
          { f with promise := { f.promise with promise_ := some o }, done := true }) := by
        refine ⟨⟨?_, ?_⟩, ?_⟩
        · intro j fj hj
          by_cases hji : j = id
          · subst hji
            simp at hj
            subst hj
            simp [slotOK, written_setFrame, written_log, hw0]
          · rw [setFrame_frames_ne _ _ _ _ hji] at hj
            simp only [log_frames] at hj
            rw [setFrame_frames_ne _ _ _ _ hji] at hj
            have h := hinv.1 j fj hj
            simpa [slotOK, written_setFrame, written_log, hji, Ne.symm hji] using h
        · intro j hj
          have hji : j ≠ id := by
            intro h
            subst h
            have := (hinv.2 j hj).1
            rw [hf] at this
            cases this
          have h := hinv.2 j hj
          simp only [setFrame_next, log_next] at hj
          rw [setFrame_frames_ne _ _ _ _ hji]
          simp only [log_frames]
          rw [setFrame_frames_ne _ _ _ _ hji]
          simpa [written_setFrame, written_log, hji, Ne.symm hji] using h
        · intro j fj hj
          by_cases hji : j = id
          · subst hji
            rw [hf] at hj
            cases hj
            refine ⟨_, setFrame_frames_same _ _ _, fun _ => rfl, ?_, fun h => h⟩
            intro o1 ho1
            rw [hp] at ho1
            cases ho1
          · refine ⟨fj, ?_, frameKeeps_refl fj⟩
            rw [setFrame_frames_ne _ _ _ _ hji]
            simp only [log_frames]
            rw [setFrame_frames_ne _ _ _ _ hji]
            exact hj
      obtain ⟨W, hW⟩ : ∃ W : World T, W = ((w.setFrame id
          { f with promise := { f.promise with promise_ := some o } }).log
          (.result_written id)).setFrame id
          { f with promise := { f.promise with promise_ := some o }, done := true } :=
        ⟨_, rfl⟩
      rw [← hW] at hw hmid
      have hWf : ∃ g, W.frames id = some g ∧ g.done = true ∧ g.promise.promise_ = some o ∧
          g.promise.continuation_ = f.promise.continuation_ := by
        rw [hW]
        exact ⟨_, setFrame_frames_same _ _ _, rfl, rfl, rfl⟩
      clear hW
      obtain ⟨g, hg, hgd, hgp, hgc⟩ := hWf
      simp only [promise_base.final_suspend.await_suspend, hg, hgc] at hw
      cases hc : f.promise.continuation_ with
      | some c =>
        simp [hc] at hw
        rw [← hw.1]
        exact ⟨hmid, g, hg, hgd, hgp⟩
      | none =>
        cases hr : f.promise.release_detached_ with
        | none =>
          simp [hc, hr] at hw
          rw [← hw.1]
          exact ⟨hmid, g, hg, hgd, hgp⟩
        | some r =>
          simp only [hc, hr] at hw
          cases hdst : coroutine_handle.destroy W r with
          | error e => simp [hdst] at hw
          | ok w2 =>
            simp [hdst] at hw
            have h2 := Next_destroy hmid.1 hdst
            rw [← hw.1]
            refine ⟨Next_trans hmid h2, ?_⟩
            obtain ⟨g1, hg1, a, b, _⟩ := h2.2 id g hg
            exact ⟨g1, hg1, a hgd, b o hgp⟩

theorem Next_await_resume {w w1 : World T} {h : Nat} {o : Outcome T} (hinv : SlotInv w)
    (hw : task_awaiter.await_resume w h = .ok (o, w1)) : Next w w1 := by
  unfold task_awaiter.await_resume at hw
  cases hf : w.frames h with
  | none => simp [hf] at hw
  | some f =>
    simp only [hf, std_future_get] at hw
    cases hv : f.promise.future_ with
    | false => simp [hv] at hw
    | true =>
      cases hpp : f.promise.promise_ with
      | none => simp [hv, hpp] at hw
      | some o1 =>
        simp [hv, hpp] at hw
        rw [← hw.2]
        exact Next_setFrame hinv hf rfl hpp.symm (fun h => h)

theorem Next_await_suspend {w w1 : World T} {h x : Nat} (hinv : SlotInv w)
    (hw : task_awaiter.await_suspend w h x = .ok w1) : Next w w1 := by
  unfold task_awaiter.await_suspend World.withPromise at hw
  cases hf : w.frames h with
  | none => simp [hf] at hw
  | some f =>
    simp [hf] at hw
    subst hw
    exact Next_setFrame hinv hf rfl rfl (fun _ => rfl)

theorem Next_saveCode {w w1 : World T} {id : Nat} {c : Code T} (hinv : SlotInv w)
    (hw : w.saveCode id c = .ok w1) : Next w w1 := by
  unfold World.saveCode at hw
  cases hf : w.frames id with
  | none => simp [hf] at hw
  | some f =>
    simp [hf] at hw
    subst hw
    exact Next_setFrame hinv hf rfl rfl (fun h => h)

theorem Next_deliver {id h : Nat} {k : T → Code T}
    (ih : ∀ (v : T) (w w1 : World T) (nxt : Option Nat), SlotInv w →
      runBody id (k v) w = .ok (w1, nxt) → Next w w1)
    {w w1 : World T} {nxt : Option Nat} (hinv : SlotInv w)
    (hw : (match task_awaiter.await_resume w h with
      | Except.error e => Except.error e
      | Except.ok (Outcome.value v, w0) => runBody id (k v) w0
      | Except.ok (Outcome.failure e, w0) => throw_stmt w0 id e) = Except.ok (w1, nxt)) :
    Next w w1 := by
  cases ha : task_awaiter.await_resume w h with
  | error e => simp [ha] at hw
  | ok p =>
    obtain ⟨o, w0⟩ := p
    have h0 := Next_await_resume hinv ha
    cases o with
    | value v =>
      simp only [ha] at hw
      exact Next_trans h0 (ih v w0 w1 nxt h0.1 hw)
    | failure e =>
      simp only [ha] at hw
      have hfin : finish w0 id (.failure e) = .ok (w1, nxt) := hw
      exact Next_trans h0 (Next_finish h0.1 hfin).1

theorem Next_runBody (id : Nat) (c : Code T) :
    ∀ (w w1 : World T) (nxt : Option Nat), SlotInv w →
      runBody id c w = .ok (w1, nxt) → Next w w1 := by
  induction c with
  | co_return v =>
    intro w w1 nxt hinv hw
    have hfin : finish w id (.value v) = .ok (w1, nxt) := hw
    exact (Next_finish hinv hfin).1
  | throw e =>
    intro w w1 nxt hinv hw
    have hfin : finish w id (.failure e) = .ok (w1, nxt) := hw
    exact (Next_finish hinv hfin).1
  | co_await h k ih =>
    intro w w1 nxt hinv hw
    simp only [runBody] at hw
    cases hr : task_awaiter.await_ready w h with
    | error e => simp [hr] at hw
    | ok b =>
      cases b with
      | true =>
        simp only [hr] at hw
        exact Next_deliver ih hinv hw
      | false =>
        simp only [hr] at hw
        cases hs1 : task_awaiter.await_suspend w h id with
        | error e => simp [hs1] at hw
        | ok w0 =>
          simp only [hs1] at hw
          cases hs2 : w0.saveCode id (.await_resume h k) with
          | error e => simp [hs2] at hw
          | ok w2 =>
            simp [hs2] at hw
            rw [← hw.1]
            have h0 := Next_await_suspend hinv hs1
            exact Next_trans h0 (Next_saveCode h0.1 hs2)
  | await_resume h k ih =>
    intro w w1 nxt hinv hw
    simp only [runBody] at hw
    exact Next_deliver ih hinv hw
  | suspend k _ =>
    intro w w1 nxt hinv hw
    simp only [runBody] at hw
    cases hs2 : w.saveCode id k with
    | error e => simp [hs2] at hw
    | ok w2 =>
      simp [hs2] at hw
      rw [← hw.1]
      exact Next_saveCode hinv hs2

theorem Next_resume (fuel : Nat) :
    ∀ (w w1 : World T) (id : Nat), SlotInv w → resume fuel w id = .ok w1 → Next w w1 := by
  induction fuel with
  | zero =>
    intro w w1 id _ hw
    simp [resume] at hw
  | succ n ih =>
    intro w w1 id hinv hw
    simp only [resume] at hw
    cases hf : w.frames id with
    | none => simp [hf] at hw
    | some f =>
      simp only [hf] at hw
      cases hd : f.done with
      | true => simp [hd] at hw
      | false =>
        simp only [hd] at hw
        have h0 : Next w (w.log (.resumed id)) := Next_log _ hinv (fun j => by simp)
        cases hb : runBody id f.code (w.log (.resumed id)) with
        | error e => simp [hb] at hw
        | ok p =>
          obtain ⟨w0, nxt⟩ := p
          have h1 := Next_trans h0 (Next_runBody id f.code _ _ _ h0.1 hb)
          cases nxt with
          | none =>
            simp [hb] at hw
            rw [← hw]
            exact h1
          | some c =>
            simp [hb] at hw
            exact Next_trans h1 (ih w0 w1 c h1.1 hw)

theorem Next_alloc {w : World T} (body : Code T) (hinv : SlotInv w) :
    Next w (w.alloc body) := by
  refine ⟨⟨?_, ?_⟩, ?_⟩
  · intro j fj hj
    by_cases hji : j = w.next
    · subst hji
      simp [World.alloc] at hj
      subst hj
      have h := (hinv.2 w.next (Nat.le_refl _)).2
      exact ⟨fun _ => ⟨rfl, h⟩, fun h1 => by cases h1⟩
    · simp [World.alloc, hji] at hj
      exact hinv.1 j fj hj
  · intro j hj
    simp only [World.alloc] at hj
    have hji : j ≠ w.next := by omega
    have h := hinv.2 j (by omega)
    simp only [World.alloc, hji, if_false]
    exact h
  · intro j fj hj
    have hji : j ≠ w.next := by
      intro h
      subst h
      have := (hinv.2 w.next (Nat.le_refl _)).1
      rw [hj] at this
      cases this
    exact ⟨fj, by simp [World.alloc, hji, hj], frameKeeps_refl fj⟩

theorem Next_spawn {w w1 : World T} {body : Code T} {t : task} (hinv : SlotInv w)
    (hw : spawn w body = .ok (w1, t)) : Next w w1 := by
  simp only [spawn, promise_base.initial_suspend_ready, if_true] at hw
  have h0 := Next_alloc body hinv
  cases hb : runBody w.next body (w.alloc body) with
  | error e => simp [hb] at hw
  | ok p =>
    obtain ⟨w0, nxt⟩ := p
    have h1 := Next_trans h0 (Next_runBody w.next body _ _ _ h0.1 hb)
    cases nxt with
    | none =>
      simp [hb] at hw
      exact hw.1 ▸ h1
    | some c =>
      simp only [hb] at hw
      cases hr : resume (w0.next + 1) w0 c with
      | error e => simp [hr] at hw
      | ok w2 =>
        simp [hr] at hw
        exact hw.1 ▸ Next_trans h1 (Next_resume _ _ _ _ h1.1 hr)

theorem Next_mark {w w1 : World T} {h : Nat} (hinv : SlotInv w)
    (hw : w.withPromise h (fun p => .ok (p.set_detached_task h)) = .ok w1) : Next w w1 := by
  unfold World.withPromise at hw
  cases hf : w.frames h with
  | none => simp [hf] at hw
  | some f =>
    simp [hf] at hw
    subst hw
    exact Next_setFrame hinv hf rfl rfl (fun h => h)

theorem Next_detach {w w1 : World T} {t t1 : task} (hinv : SlotInv w)
    (hw : task.detach w t = .ok (w1, t1)) : Next w w1 := by
  unfold task.detach at hw
  cases hdet : t.detached_ with
  | true => simp [hdet] at hw
  | false =>
    cases hth : t.h_ with
    | none => simp [hdet, hth] at hw
    | some h =>
      simp only [hdet, hth, Bool.not_false, if_true] at hw
      cases hm : w.withPromise h (fun p => .ok (p.set_detached_task h)) with
      | error e => simp [hm] at hw
      | ok w2 =>
        simp [hm] at hw
        rw [← hw.1]
        exact Next_mark hinv hm

theorem Next_dtor {w w1 : World T} {t : task} {st : DtorStatus} (hinv : SlotInv w)
    (hw : task.dtor w t = .ok (w1, st)) : Next w w1 := by
  unfold task.dtor at hw
  cases hdet : t.detached_ with
  | true =>
    simp [hdet] at hw
    rw [← hw.1]
    exact ⟨hinv, Evolves_refl w⟩
  | false =>
    cases hth : t.h_ with
    | none => simp [hdet, hth] at hw
    | some h =>
      simp only [hdet, hth, Bool.not_false, if_true] at hw
      cases hdn : coroutine_handle.done w h with
      | error e => simp [hdn] at hw
      | ok b =>
        cases b with
        | true =>
          simp only [hdn] at hw
          cases hdst : coroutine_handle.destroy w h with
          | error e => simp [hdst] at hw
          | ok w2 =>
            simp [hdst] at hw
            rw [← hw.1]
            exact Next_destroy hinv hdst
        | false =>
          simp only [hdn] at hw
          cases hm : w.withPromise h (fun p => .ok (p.set_detached_task h)) with
          | error e => simp [hm] at hw
          | ok w2 =>
            simp only [hm] at hw
            have h2 := Next_mark hinv hm
            split at hw
            · cases hw
            · split at hw
              · cases hw
              · simp only [Except.ok.injEq, Prod.mk.injEq] at hw
                rw [← hw.1]
                exact h2
              · simp only [Except.ok.injEq, Prod.mk.injEq] at hw
                rw [← hw.1]
                exact h2

theorem Next_get {w w1 : World T} {t : task} {o : Outcome T} (hinv : SlotInv w)
    (hw : task.get_future_get w t = .ok (o, w1)) : Next w w1 := by
  unfold task.get_future_get at hw
  cases hth : t.h_ with
  | none => simp [hth] at hw
  | some h =>
    have hg1 : task_awaiter.await_resume w h = .ok (o, w1) := by
      simpa [hth, task_awaiter.await_resume] using hw
    exact Next_await_resume hinv hg1

theorem Next_step {s s1 : Sys T} (op : Op T) (hinv : SlotInv s.world)
    (hs : s.step op = .ok s1) : Next s.world s1.world := by
  cases op with
  | call body =>
    simp only [Sys.step] at hs
    cases hsp : spawn s.world body with
    | error e => simp [hsp] at hs
    | ok p =>
      obtain ⟨w, t⟩ := p
      simp [hsp] at hs
      subst hs
      exact Next_spawn hinv hsp
  | move i =>
    simp only [Sys.step] at hs
    cases hh : s.handles i with
    | none => simp [hh] at hs
    | some other =>
      simp [hh] at hs
      subst hs
      exact ⟨hinv, Evolves_refl _⟩
  | detach i =>
    simp only [Sys.step] at hs
    cases hh : s.handles i with
    | none => simp [hh] at hs
    | some t =>
      simp only [hh] at hs
      cases hd : task.detach s.world t with
      | error e => simp [hd] at hs
      | ok p =>
        obtain ⟨w, t1⟩ := p
        simp [hd, Sys.setHandle] at hs
        subst hs
        exact Next_detach hinv hd
  | dtor i =>
    simp only [Sys.step] at hs
    cases hh : s.handles i with
    | none => simp [hh] at hs
    | some t =>
      simp only [hh] at hs
      cases hd : task.dtor s.world t with
      | error e => simp [hd] at hs
      | ok p =>
        obtain ⟨w, st⟩ := p
        simp [hd, Sys.setHandle] at hs
        subst hs
        exact Next_dtor hinv hd
  | get i =>
    simp only [Sys.step] at hs
    cases hh : s.handles i with
    | none => simp [hh] at hs
    | some t =>
      simp only [hh] at hs
      cases hg : task.get_future_get s.world t with
      | error e => simp [hg] at hs
      | ok p =>
        obtain ⟨o, w⟩ := p
        simp [hg] at hs
        subst hs
        exact Next_get hinv hg
  | resume id =>
    simp only [Sys.step] at hs
    cases hr : resume (s.world.next + 1) s.world id with
    | error e => simp [hr] at hs
    | ok w =>
      simp [hr] at hs
      subst hs
      exact Next_resume _ _ _ _ hinv hr

theorem Next_run (ops : List (Op T)) :
    ∀ (s s1 : Sys T), SlotInv s.world → s.run ops = .ok s1 → Next s.world s1.world := by
  induction ops with
  | nil =>
    intro s s1 hinv hs
    simp [Sys.run] at hs
    exact hs ▸ ⟨hinv, Evolves_refl _⟩
  | cons op ops ih =>
    intro s s1 hinv hs
    simp only [Sys.run] at hs
    cases h1 : s.step op with
    | error e => simp [h1] at hs
    | ok s2 =>
      simp only [h1] at hs
      have h2 := Next_step op hinv h1
      exact Next_trans h2 (ih s2 s1 h2.1 hs)

theorem SlotInv_empty : SlotInv (Sys.empty : Sys T).world := by
  refine ⟨?_, ?_⟩
  · intro id f hf
    simp [Sys.empty, World.empty] at hf
  · intro id _
    exact ⟨rfl, rfl⟩

/-! ## The continuation link -/

/-- C13, as stated, fails: a second cooperative wait on a coroutine that is not
done replaces the registration of the first waiter; when the awaited coroutine
completes, only the second waiter is resumed and the first one stays suspended. -/
theorem second_waiter_replaces_first :
    ∃ w1 w2 w3 w4,
      spawn (World.empty : World Int) (.suspend (.co_return 42)) = .ok (w1, task.ctor 0) ∧
      spawn w1 (.co_await 0 (fun r => .co_return (r + 1))) = .ok (w2, task.ctor 1) ∧
      continuationOf w2 0 = some 1 ∧
      spawn w2 (.co_await 0 (fun r => .co_return (r + 2))) = .ok (w3, task.ctor 2) ∧
      continuationOf w3 0 = some 2 ∧
      resume 3 w3 0 = .ok w4 ∧
      coroutine_handle.done w4 1 = .ok false ∧
      coroutine_handle.done w4 2 = .ok true :=
  ⟨_, _, _, _, rfl, rfl, rfl, rfl, rfl, rfl, rfl, rfl⟩

/-- C13, amended: in every reachable system a continuation link that is set
stays set through every later run of operations; a cooperative wait on a frame
that is done is ready at once and its `await_resume` leaves the link as it is;
a cooperative wait on a frame that is not done stores the new waiter in the
link, whatever the link held. -/
theorem continuation_kept_or_replaced (ops ops2 : List (Op T)) (s s2 : Sys T)
    (hrun : Sys.run Sys.empty ops = .ok s) (hrun2 : s.run ops2 = .ok s2) :
    (∀ id f, s.world.frames id = some f → f.promise.continuation_.isSome = true →
      ∃ g, s2.world.frames id = some g ∧ g.promise.continuation_.isSome = true) ∧
    (∀ (w : World T) (x h : Nat) (k : T → Code T) (fh : Frame T), w.frames h = some fh →
      (fh.done = true →
        task_awaiter.await_ready w h = .ok true ∧
        ∀ o w0, task_awaiter.await_resume w h = .ok (o, w0) →
          continuationOf w0 h = fh.promise.continuation_) ∧
      (fh.done = false → ∀ fx, w.frames x = some fx → x ≠ h →
        ∃ w1, runBody x (.co_await h k) w = .ok (w1, none) ∧
          continuationOf w1 h = some x)) := by
  have hinv : SlotInv s.world := (Next_run ops _ _ SlotInv_empty hrun).1
  have hev := (Next_run ops2 _ _ hinv hrun2).2
  refine ⟨?_, ?_⟩
  · intro id f hf hc
    obtain ⟨g, hg, _, _, c⟩ := hev id f hf
    exact ⟨g, hg, c hc⟩
  · intro w x h k fh hfh
    refine ⟨?_, ?_⟩
    · intro hd
      refine ⟨by simp [task_awaiter.await_ready, coroutine_handle.done, hfh, hd], ?_⟩
      intro o w0 hw
      simp only [task_awaiter.await_resume, hfh, std_future_get] at hw
      cases hv : fh.promise.future_ with
      | false => simp [hv] at hw
      | true =>
        cases hp : fh.promise.promise_ with
        | none => simp [hv, hp] at hw
        | some o1 =>
          simp [hv, hp] at hw
          rw [← hw.2]
          simp [continuationOf]
    · intro hd fx hfx hne
      simp [runBody, task_awaiter.await_ready, coroutine_handle.done, task_awaiter.await_suspend,
        World.withPromise, World.saveCode, hfh, hd, hfx, hne, continuationOf, Ne.symm hne]

/-- C13, amended, on a run in which a second waiter takes the place of the
first: the link of the awaited frame is set before and after. -/
theorem continuation_kept_or_replaced_witness :
    ∃ s s2 f g, Sys.run Sys.empty oneWaiter = .ok s ∧ s.run secondWaiter = .ok s2 ∧
      s.world.frames 0 = some f ∧ f.promise.continuation_ = some 1 ∧
      s2.world.frames 0 = some g ∧ g.promise.continuation_ = some 2 ∧
      (∃ g1, s2.world.frames 0 = some g1 ∧ g1.promise.continuation_.isSome = true) :=
  ⟨_, _, _, _, rfl, rfl, rfl, rfl, rfl, rfl,
    (continuation_kept_or_replaced oneWaiter secondWaiter _ _ rfl rfl).1 0 _ rfl rfl⟩

/-! ## The result slot -/

/-- C14: in every reachable system the result slot of a frame that is not done
is unset and has never been written, and completing that frame writes the
outcome once and makes the frame done; the slot of a frame that is done holds
an outcome and has been written exactly once; and after every later run of
operations a frame that was done is still done, holds the same outcome, and
has still been written exactly once. -/
theorem slot_written_once (ops ops2 : List (Op T)) (s s2 : Sys T)
    (hrun : Sys.run Sys.empty ops = .ok s) (hrun2 : s.run ops2 = .ok s2)
    (id : Nat) (f : Frame T) (hf : s.world.frames id = some f) :
    (f.done = false → f.promise.promise_ = none ∧ written s.world id = 0 ∧
      ∀ o, ∃ w1 nxt g, finish s.world id o = .ok (w1, nxt) ∧ w1.frames id = some g ∧
        g.done = true ∧ g.promise.promise_ = some o ∧ written w1 id = 1) ∧
    (f.done = true → (∃ o, f.promise.promise_ = some o) ∧ written s.world id = 1) ∧
    (∃ g, s2.world.frames id = some g ∧
      (f.done = true → g.done = true ∧ g.promise.promise_ = f.promise.promise_ ∧
        written s2.world id = 1)) := by
  have hinv : SlotInv s.world := (Next_run ops _ _ SlotInv_empty hrun).1
  have hnext := Next_run ops2 _ _ hinv hrun2
  have hok := (Inv_run ops _ _ Inv_empty hrun).1.1 id f hf
  refine ⟨?_, (hinv.1 id f hf).2, ?_⟩
  · intro hd
    obtain ⟨hp, hw0⟩ := (hinv.1 id f hf).1 hd
    refine ⟨hp, hw0, ?_⟩
    intro o
    have hex : ∃ w1 nxt, finish s.world id o = .ok (w1, nxt) := by
      rw [finish_eq s.world id f o hf hp]
      simp only [promise_base.final_suspend.await_suspend, setFrame_frames_same]
      cases hc : f.promise.continuation_ with
      | some c => exact ⟨_, _, rfl⟩
      | none =>
        cases hr : f.promise.release_detached_ with
        | none => exact ⟨_, _, rfl⟩
        | some r =>
          have hrid : r = id := hok.2.2.2 r hr
          subst hrid
          simp [coroutine_handle.destroy]
    obtain ⟨w1, nxt, hfin⟩ := hex
    obtain ⟨hn, g, hg, hgd, hgp⟩ := Next_finish hinv hfin
    exact ⟨w1, nxt, g, hfin, hg, hgd, hgp, ((hn.1.1 id g hg).2 hgd).2⟩
  · obtain ⟨g, hg, a, b, _⟩ := hnext.2 id f hf
    refine ⟨g, hg, ?_⟩
    intro hd
    obtain ⟨⟨o, ho⟩, _⟩ := (hinv.1 id f hf).2 hd
    exact ⟨a hd, by rw [ho]; exact b o ho, ((hnext.1.1 id g hg).2 (a hd)).2⟩

/-- C14 on a run in which a coroutine returns 42 at once and its result is read
and its handle moved and dropped afterwards. -/
theorem slot_written_once_witness :
    ∃ s s2 f g, Sys.run Sys.empty callReturn42 = .ok s ∧ s.run readAndDrop = .ok s2 ∧
      s.world.frames 0 = some f ∧ f.done = true ∧
      f.promise.promise_ = some (.value 42) ∧
      s2.world.frames 0 = some g ∧ g.promise.promise_ = some (.value 42) ∧
      g.destroyed = 1 ∧
      ((∃ o, f.promise.promise_ = some o) ∧ written s.world 0 = 1) :=
  ⟨_, _, _, _, rfl, rfl, rfl, rfl, rfl, rfl, rfl, rfl,
    (slot_written_once callReturn42 readAndDrop _ _ rfl rfl 0 _ rfl).2.1 rfl⟩

/-! ## Order of events -/

theorem prefix_final_await_suspend {w w1 : World T} {rel nxt : Option Nat} {id : Nat}
    (hw : promise_base.final_suspend.await_suspend w rel id = .ok (w1, nxt)) :
    w.trace <+: w1.trace := by
  unfold promise_base.final_suspend.await_suspend at hw
  cases hf : w.frames id with
  | none => simp [hf] at hw
  | some f =>
    simp only [hf] at hw
    cases hc : f.promise.continuation_ with
    | some c =>
      simp [hc] at hw
      rw [← hw.1]
    | none =>
      cases rel with
      | none =>
        simp [hc] at hw
        rw [← hw.1]
      | some r =>
        simp only [hc, coroutine_handle.destroy] at hw
        cases hfr : w.frames r with
        | none => simp [hfr] at hw
        | some fr =>
          simp [hfr] at hw
          rw [← hw.1]
          simp

theorem prefix_withPromise {w w1 : World T} {h : Nat}
    {m : promise_type T → Except Fault (promise_type T)}
    (hw : w.withPromise h m = .ok w1) : w1.trace = w.trace := by
  unfold World.withPromise at hw
  cases hf : w.frames h with
  | none => simp [hf] at hw
  | some f =>
    cases hq : m f.promise with
    | error e => simp [hf, hq] at hw
    | ok q =>
      simp [hf, hq] at hw
      subst hw
      rfl

theorem prefix_final_suspend {w w1 : World T} {nxt : Option Nat} {id : Nat}
    (hw : promise_base.final_suspend w id = .ok (w1, nxt)) : w.trace <+: w1.trace := by
  unfold promise_base.final_suspend at hw
  cases hf : w.frames id with
  | none => simp [hf] at hw
  | some f =>
    simp only [hf] at hw
    have h1 := prefix_final_await_suspend hw
    rw [setFrame_trace] at h1
    exact h1

theorem prefix_finish {w w1 : World T} {id : Nat} {o : Outcome T} {nxt : Option Nat}
    (hw : finish w id o = .ok (w1, nxt)) : w.trace <+: w1.trace := by
  cases o with
  | value v =>
    simp only [finish, co_return_stmt] at hw
    cases hq : w.withPromise id (fun p => value_returner.return_value p v) with
    | error e => simp [hq] at hw
    | ok w0 =>
      simp only [hq] at hw
      have h1 := prefix_final_suspend hw
      rw [log_trace, prefix_withPromise hq] at h1
      exact (List.prefix_append _ _).trans h1
  | failure e =>
    simp only [finish, throw_stmt] at hw
    cases hq : w.withPromise id (fun p => promise_type.unhandled_exception p e) with
    | error e1 => simp [hq] at hw
    | ok w0 =>
      simp only [hq] at hw
      have h1 := prefix_final_suspend hw
      rw [log_trace, prefix_withPromise hq] at h1
      exact (List.prefix_append _ _).trans h1

theorem prefix_await_resume {w w1 : World T} {h : Nat} {o : Outcome T}
    (hw : task_awaiter.await_resume w h = .ok (o, w1)) : w1.trace = w.trace := by
  unfold task_awaiter.await_resume at hw
  cases hf : w.frames h with
  | none => simp [hf] at hw
  | some f =>
    simp only [hf] at hw
    cases hg : std_future_get f.promise with
    | error e => simp [hg] at hw
    | ok p =>
      simp [hg] at hw
      rw [← hw.2]
      rfl

theorem prefix_saveCode {w w1 : World T} {id : Nat} {c : Code T}
    (hw : w.saveCode id c = .ok w1) : w1.trace = w.trace := by
  unfold World.saveCode at hw
  cases hf : w.frames id with
  | none => simp [hf] at hw
  | some f =>
    simp [hf] at hw
    subst hw
    rfl

theorem prefix_deliver {id : Nat} {k : T → Code T}
    (ih : ∀ (v : T) (w w1 : World T) (nxt : Option Nat),
      runBody id (k v) w = .ok (w1, nxt) → w.trace <+: w1.trace)
    {w w1 : World T} {o : Outcome T} {nxt : Option Nat}
    (hw : deliver id k o w = .ok (w1, nxt)) : w.trace <+: w1.trace := by
  cases o with
  | value v => exact ih v w w1 nxt hw
  | failure e =>
    have hfin : finish w id (.failure e) = .ok (w1, nxt) := hw
    exact prefix_finish hfin

theorem runBody_await_resume (x h : Nat) (k : T → Code T) (w : World T) :
    runBody x (.await_resume h k) w =
      match task_awaiter.await_resume w h with
      | .error e => .error e
      | .ok (o, w0) => deliver x k o w0 := by
  simp only [runBody]
  cases task_awaiter.await_resume w h with
  | error e => rfl
  | ok p =>
    obtain ⟨o, w0⟩ := p
    cases o <;> rfl

theorem prefix_runBody (id : Nat) (c : Code T) :
    ∀ (w w1 : World T) (nxt : Option Nat),
      runBody id c w = .ok (w1, nxt) → w.trace <+: w1.trace := by
  induction c with
  | co_return v =>
    intro w w1 nxt hw
    have hfin : finish w id (.value v) = .ok (w1, nxt) := hw
    exact prefix_finish hfin
  | throw e =>
    intro w w1 nxt hw
    have hfin : finish w id (.failure e) = .ok (w1, nxt) := hw
    exact prefix_finish hfin
  | co_await h k ih =>
    intro w w1 nxt hw
    simp only [runBody] at hw
    cases hr : task_awaiter.await_ready w h with
    | error e => simp [hr] at hw
    | ok b =>
      cases b with
      | true =>
        simp only [hr] at hw
        have hw2 : runBody id (.await_resume h k) w = .ok (w1, nxt) := by
          simp only [runBody]
          exact hw
        rw [runBody_await_resume] at hw2
        cases ha : task_awaiter.await_resume w h with
        | error e => simp [ha] at hw2
        | ok p =>
          obtain ⟨o, w0⟩ := p
          simp only [ha] at hw2
          have h1 := prefix_deliver ih hw2
          rw [prefix_await_resume ha] at h1
          exact h1
      | false =>
        simp only [hr] at hw
        cases hs1 : task_awaiter.await_suspend w h id with
        | error e => simp [hs1] at hw
        | ok w0 =>
          simp only [hs1] at hw
          cases hs2 : w0.saveCode id (.await_resume h k) with
          | error e => simp [hs2] at hw
          | ok w2 =>
            simp [hs2] at hw
            rw [← hw.1, prefix_saveCode hs2, prefix_withPromise hs1]
  | await_resume h k ih =>
    intro w w1 nxt hw
    rw [runBody_await_resume] at hw
    cases ha : task_awaiter.await_resume w h with
    | error e => simp [ha] at hw
    | ok p =>
      obtain ⟨o, w0⟩ := p
      simp only [ha] at hw
      have h1 := prefix_deliver ih hw
      rw [prefix_await_resume ha] at h1
      exact h1
  | suspend k _ =>
    intro w w1 nxt hw
    simp only [runBody] at hw
    cases hs2 : w.saveCode id k with
    | error e => simp [hs2] at hw
    | ok w2 =>
      simp [hs2] at hw
      rw [← hw.1, prefix_saveCode hs2]

theorem resume_succ (n : Nat) (w : World T) (id : Nat) (f : Frame T)
    (hf : w.frames id = some f) (hd : f.done = false) :
    resume (n + 1) w id = drive n (runBody id f.code (w.log (.resumed id))) := by
  simp only [resume, hf, hd]
  cases runBody id f.code (w.log (.resumed id)) with
  | error e => rfl
  | ok p =>
    obtain ⟨w1, nxt⟩ := p
    cases nxt <;> rfl

theorem prefix_resume (fuel : Nat) :
    ∀ (w w1 : World T) (id : Nat), resume fuel w id = .ok w1 → w.trace <+: w1.trace := by
  induction fuel with
  | zero =>
    intro w w1 id hw
    simp [resume] at hw
  | succ n ih =>
    intro w w1 id hw
    simp only [resume] at hw
    cases hf : w.frames id with
    | none => simp [hf] at hw
    | some f =>
      simp only [hf] at hw
      cases hd : f.done with
      | true => simp [hd] at hw
      | false =>
        simp only [hd] at hw
        cases hb : runBody id f.code (w.log (.resumed id)) with
        | error e => simp [hb] at hw
        | ok p =>
          obtain ⟨w0, nxt⟩ := p
          have h1 := prefix_runBody id f.code _ _ _ hb
          rw [log_trace] at h1
          have h2 := (List.prefix_append _ _).trans h1
          cases nxt with
          | none =>
            simp [hb] at hw
            rw [← hw]
            exact h2
          | some c =>
            simp [hb] at hw
            exact h2.trans (ih w0 w1 c hw)

theorem prefix_drive {fuel : Nat} {r : Except Fault (World T × Option Nat)} {w w1 : World T}
    (hr : ∀ w0 nxt, r = .ok (w0, nxt) → w.trace <+: w0.trace)
    (hw : drive fuel r = .ok w1) : w.trace <+: w1.trace := by
  cases r with
  | error e => simp [drive] at hw
  | ok p =>
    obtain ⟨w0, nxt⟩ := p
    have h0 := hr w0 nxt rfl
    cases nxt with
    | none =>
      simp [drive] at hw
      rw [← hw]
      exact h0
    | some c =>
      simp only [drive] at hw
      exact h0.trans (prefix_resume fuel _ _ _ hw)

theorem completeAt_frames_same (w : World T) (x : Nat) (fx : Frame T) (o : Outcome T) :
    (completeAt w x fx o).frames x =
      some { fx with promise := { fx.promise with promise_ := some o }, done := true } := by
  simp [completeAt]

theorem completeAt_frames_ne (w : World T) (x j : Nat) (fx : Frame T) (o : Outcome T)
    (h : j ≠ x) : (completeAt w x fx o).frames j = w.frames j := by
  simp [completeAt, h]

theorem completeAt_trace (w : World T) (x : Nat) (fx : Frame T) (o : Outcome T) :
    (completeAt w x fx o).trace = w.trace ++ [.resumed x, .result_written x] := by
  simp [completeAt]

theorem final_await_suspend_continuation (w : World T) (rel : Option Nat) (x y : Nat)
    (g : Frame T) (hg : w.frames x = some g) (hc : g.promise.continuation_ = some y) :
    promise_base.final_suspend.await_suspend w rel x = .ok (w, some y) := by
  simp [promise_base.final_suspend.await_suspend, hg, hc]

theorem resume_awaited (n : Nat) (w : World T) (x h : Nat) (fx fh : Frame T)
    (k : T → Code T) (oh : Outcome T) (hfx : w.frames x = some fx)
    (hfh : w.frames h = some fh) (hcx : fx.code = .await_resume h k)
    (hdx : fx.done = false) (hph : fh.promise.promise_ = some oh)
    (hvh : fh.promise.future_ = true) :
    resume (n + 1) w x =
      drive n (deliver x k oh
        ((w.log (.resumed x)).setFrame h
          { fh with promise := { fh.promise with future_ := false } })) := by
  rw [resume_succ n w x fx hfx hdx, hcx, runBody_await_resume]
  simp [task_awaiter.await_resume, hfh, std_future_get, hph, hvh]

theorem resume_completes (n : Nat) (w : World T) (x y : Nat) (fx : Frame T) (o : Outcome T)
    (hfx : w.frames x = some fx) (hdx : fx.done = false)
    (hpx : fx.promise.promise_ = none) (hlx : fx.promise.continuation_ = some y)
    (hrun : ∀ W, runBody x fx.code W = finish W x o) :
    resume (n + 1) w x = resume n (completeAt w x fx o) y := by
  rw [resume_succ n w x fx hfx hdx, hrun, finish_eq (w.log (.resumed x)) x fx o hfx hpx]
  simp [promise_base.final_suspend.await_suspend, hlx, drive, completeAt]

theorem resume_awaited_completes (n : Nat) (w : World T) (x y h : Nat) (fx fh : Frame T)
    (k : T → Code T) (oh ox : Outcome T) (hfx : w.frames x = some fx)
    (hfh : w.frames h = some fh) (hxh : x ≠ h) (hcx : fx.code = .await_resume h k)
    (hdx : fx.done = false) (hpx : fx.promise.promise_ = none)
    (hlx : fx.promise.continuation_ = some y) (hph : fh.promise.promise_ = some oh)
    (hvh : fh.promise.future_ = true) (hB : ∀ W, deliver x k oh W = finish W x ox) :
    resume (n + 1) w x =
      resume n (completeAt
        (w.setFrame h { fh with promise := { fh.promise with future_ := false } }) x fx ox)
        y := by
  rw [resume_awaited n w x h fx fh k oh hfx hfh hcx hdx hph hvh, hB,
    finish_eq _ x fx ox (by simp [hxh, hfx]) hpx]
  show drive n (promise_base.final_suspend.await_suspend
    (completeAt (w.setFrame h { fh with promise := { fh.promise with future_ := false } })
      x fx ox) fx.promise.release_detached_ x) = _
  rw [final_await_suspend_continuation _ _ x y _ (completeAt_frames_same _ _ _ _) hlx]
  rfl

end rdmapp
